import Mathlib

/-!
Verification of the query-plan analyzer of go-mysql-server: a shallow embedding
of the plan/expression tree model, the transformation primitives, and the
analyzer rules for subquery resolution, cacheability analysis, join scope
propagation, function resolution, and trigger creation.
-/

set_option maxHeartbeats 1000000

namespace Gms

/-- Join kinds of plan join nodes. `rightOuter` mirrors `plan.JoinTypeRight`. -/
inductive JoinType where
  | inner
  | leftOuter
  | rightOuter
deriving DecidableEq, Repr

/-- Kinds of function implementations the catalog can return: plain scalar
functions, `sql.Aggregation`, and `sql.WindowAggregation`. -/
inductive FuncKind where
  | scalar
  | aggregation
  | windowAggregation
deriving DecidableEq, Repr

/-- Analyzer / engine errors (the error taxonomy used by the rules). -/
inductive AErr where
  | validationResolved
  | tableColumnNotFound
  | columnNotFound
  | columnCountMismatch
  | unknownFunction (name : String)
  | other (code : Nat)
deriving DecidableEq, Repr

mutual
/-- Expressions (`sql.Expression`): literals, resolved column references
(`expression.GetField`, carrying its field index), unresolved column
references, unresolved function calls (`expression.UnresolvedFunction`,
carrying name, argument list and a separately-carried window specification),
resolved function instances (with kind and a non-determinism flag standing
for `sql.NonDeterministicExpression.IsNonDeterministic`), and subquery
expressions (`plan.Subquery`, owning an inner plan node and a
cache-results flag set by `WithCachedResults`). -/
inductive Expr where
  | literal (v : Int)
  | getField (idx : Nat) (name : String)
  | uCol (name : String)
  | uFunc (name : String) (args : List Expr) (window : Option Nat)
  | funcE (name : String) (args : List Expr) (window : Option Nat)
      (kind : FuncKind) (nd : Bool)
  | subquery (query : Node) (cached : Bool)

/-- Plan nodes (`sql.Node`): base tables, projections (the `Expressioner`
nodes of the model), `plan.SubqueryAlias` (with optional explicit column
alias list), join nodes (`plan.JoinNode`, carrying their `ScopeLen`
annotation), `plan.IndexedJoin`, `plan.CachedResults`, `plan.StripRowNode`,
`plan.TriggerBeginEndBlock`, and the two passthrough wrappers
`plan.QueryProcess` and `plan.StartTransaction`. -/
inductive Node where
  | table (name : String) (cols : List String)
  | project (exprs : List Expr) (child : Node)
  | subqueryAlias (name : String) (columns : List String) (child : Node)
  | join (jt : JoinType) (scopeLen : Nat) (l : Node) (r : Node)
  | indexedJoin (l : Node) (r : Node)
  | cachedResults (child : Node)
  | stripRowNode (child : Node) (numCols : Nat)
  | triggerBlock (body : List Node)
  | queryProcess (child : Node)
  | startTransaction (child : Node)
end

mutual
/-- Structural equality test on expressions (the model of the deep equality
used by the analyzer's `nodesEqual` helper). -/
def Expr.eqb : Expr → Expr → Bool
  | .literal v, .literal w => v == w
  | .getField i n, .getField j m => i == j && n == m
  | .uCol n, .uCol m => n == m
  | .uFunc n a w, .uFunc m b x => n == m && exprsEqb a b && w == x
  | .funcE n a w k d, .funcE m b x l e =>
      n == m && exprsEqb a b && w == x && k == l && d == e
  | .subquery q c, .subquery r d => q.eqb r && c == d
  | _, _ => false

def exprsEqb : List Expr → List Expr → Bool
  | [], [] => true
  | e :: es, f :: fs => e.eqb f && exprsEqb es fs
  | _, _ => false

/-- Structural equality test on plan nodes. -/
def Node.eqb : Node → Node → Bool
  | .table n c, .table m d => n == m && c == d
  | .project es c, .project fs d => exprsEqb es fs && c.eqb d
  | .subqueryAlias n cs c, .subqueryAlias m ds d => n == m && cs == ds && c.eqb d
  | .join jt sl l r, .join jt' sl' l' r' =>
      jt == jt' && sl == sl' && l.eqb l' && r.eqb r'
  | .indexedJoin l r, .indexedJoin l' r' => l.eqb l' && r.eqb r'
  | .cachedResults c, .cachedResults d => c.eqb d
  | .stripRowNode c k, .stripRowNode d l => c.eqb d && k == l
  | .triggerBlock b, .triggerBlock b' => nodesEqb b b'
  | .queryProcess c, .queryProcess d => c.eqb d
  | .startTransaction c, .startTransaction d => c.eqb d
  | _, _ => false

def nodesEqb : List Node → List Node → Bool
  | [], [] => true
  | n :: ns, m :: ms => n.eqb m && nodesEqb ns ms
  | _, _ => false
end

/-- Output column name of an expression (used only to build schemas). -/
def exprName : Expr → String
  | .literal v => toString v
  | .getField _ n => n
  | .uCol n => n
  | .uFunc n _ _ => n
  | .funcE n _ _ _ _ => n
  | .subquery _ _ => "subquery"

/-- Output schema (list of column names) of a plan node. -/
def Node.schema : Node → List String
  | .table _ cols => cols
  | .project exprs _ => exprs.map exprName
  | .subqueryAlias _ columns child =>
      if columns.isEmpty then child.schema else columns
  | .join _ _ l r => l.schema ++ r.schema
  | .indexedJoin l r => l.schema ++ r.schema
  | .cachedResults child => child.schema
  | .stripRowNode child numCols => child.schema.drop numCols
  | .triggerBlock _ => []
  | .queryProcess child => child.schema
  | .startTransaction child => child.schema

/-- `schemaLength` analyzer helper: the number of output columns of a node. -/
def schemaLength (n : Node) : Nat := n.schema.length

mutual
/-- `Resolved()` for expressions: unresolved columns and unresolved function
calls are not resolved; a function instance is resolved when its arguments
are; a subquery expression is resolved when its inner query is. -/
def Expr.resolvedB : Expr → Bool
  | .literal _ => true
  | .getField _ _ => true
  | .uCol _ => false
  | .uFunc _ _ _ => false
  | .funcE _ args _ _ _ => exprsResolvedB args
  | .subquery query _ => query.resolvedB

def exprsResolvedB : List Expr → Bool
  | [] => true
  | e :: es => e.resolvedB && exprsResolvedB es

/-- `Resolved()` for plan nodes: true iff the node's own metadata is bound and
all children (and attached expressions) are resolved. -/
def Node.resolvedB : Node → Bool
  | .table _ _ => true
  | .project exprs child => exprsResolvedB exprs && child.resolvedB
  | .subqueryAlias _ _ child => child.resolvedB
  | .join _ _ l r => l.resolvedB && r.resolvedB
  | .indexedJoin l r => l.resolvedB && r.resolvedB
  | .cachedResults child => child.resolvedB
  | .stripRowNode child _ => child.resolvedB
  | .triggerBlock body => nodesResolvedB body
  | .queryProcess child => child.resolvedB
  | .startTransaction child => child.resolvedB

def nodesResolvedB : List Node → Bool
  | [] => true
  | n :: ns => n.resolvedB && nodesResolvedB ns
end

/-- Modelled from the spec: a `Scope` is the chain of lexically enclosing
query blocks, innermost first (the `Scope` type of the analyzer package is
not among the sources; per the spec it owns its parent chain and the node of
each level, and `Schema()` is the concatenation of output columns visible
from the enclosing levels). The Go `nil` scope is the empty list. -/
def Scope := List Node

/-- Modelled from the spec: `Scope.newScope(node)` pushes one level. -/
def Scope.newScope (s : Scope) (n : Node) : Scope := n :: s

/-- Modelled from the spec: `Scope.Schema()` concatenates the schemas of the
scope's levels. -/
def Scope.schema (s : Scope) : List String :=
  (List.map Node.schema s).foldr (· ++ ·) []

/-- `StripPassthroughNodes` strips all top-level passthrough nodes
(`QueryProcess`, `StartTransaction`) and returns the first non-passthrough
descendant. -/
def StripPassthroughNodes : Node → Node
  | .queryProcess child => StripPassthroughNodes child
  | .startTransaction child => StripPassthroughNodes child
  | n => n

/-- Change-identity splice for a rewritten child: per the change-identity
contract, a child rewrite reporting `Same` (`true`) is not spliced into the
parent; the original child is kept. -/
def pick (orig : Node) (r : Node × Bool) : Node := if r.2 then orig else r.1

/-- Change-identity splice for a rewritten expression. -/
def pickE (orig : Expr) (r : Expr × Bool) : Expr := if r.2 then orig else r.1

mutual
/-- Modelled from the spec: the bottom-up node transform primitive
(`visit.Nodes`, whose `sql/visit` source is not included): children are
visited before parents; a child rewrite reporting `Same` is not spliced; the
callback is applied to the (possibly rebuilt) node and its result is
returned together with the conjunction of all change-identity flags
(`true` = `SameTree`). Errors abort the traversal. -/
def visitNodes (f : Node → Except AErr (Node × Bool)) :
    Node → Except AErr (Node × Bool)
  | .table nm cols => f (.table nm cols)
  | .project es c => do
      let rc ← visitNodes f c
      let r ← f (.project es (pick c rc))
      pure (r.1, rc.2 && r.2)
  | .subqueryAlias nm cols c => do
      let rc ← visitNodes f c
      let r ← f (.subqueryAlias nm cols (pick c rc))
      pure (r.1, rc.2 && r.2)
  | .join jt sl l r => do
      let rl ← visitNodes f l
      let rr ← visitNodes f r
      let res ← f (.join jt sl (pick l rl) (pick r rr))
      pure (res.1, rl.2 && rr.2 && res.2)
  | .indexedJoin l r => do
      let rl ← visitNodes f l
      let rr ← visitNodes f r
      let res ← f (.indexedJoin (pick l rl) (pick r rr))
      pure (res.1, rl.2 && rr.2 && res.2)
  | .cachedResults c => do
      let rc ← visitNodes f c
      let r ← f (.cachedResults (pick c rc))
      pure (r.1, rc.2 && r.2)
  | .stripRowNode c k => do
      let rc ← visitNodes f c
      let r ← f (.stripRowNode (pick c rc) k)
      pure (r.1, rc.2 && r.2)
  | .triggerBlock b => do
      let rb ← visitNodesList f b
      let r ← f (.triggerBlock rb.1)
      pure (r.1, rb.2 && r.2)
  | .queryProcess c => do
      let rc ← visitNodes f c
      let r ← f (.queryProcess (pick c rc))
      pure (r.1, rc.2 && r.2)
  | .startTransaction c => do
      let rc ← visitNodes f c
      let r ← f (.startTransaction (pick c rc))
      pure (r.1, rc.2 && r.2)

def visitNodesList (f : Node → Except AErr (Node × Bool)) :
    List Node → Except AErr (List Node × Bool)
  | [] => pure ([], true)
  | n :: ns => do
      let r ← visitNodes f n
      let rs ← visitNodesList f ns
      pure (pick n r :: rs.1, r.2 && rs.2)
end

mutual
/-- Bottom-up transform of every sub-expression of an expression, passing the
owning node to the callback (the expression half of
`visit.NodesExprsWithNode`). Expression children are visited first; the
callback is then applied to the rebuilt expression. The inner plan of a
subquery expression is not an expression child and is not entered. -/
def exprTransformUp (f : Node → Expr → Except AErr (Expr × Bool))
    (owner : Node) : Expr → Except AErr (Expr × Bool)
  | .literal v => f owner (.literal v)
  | .getField i nm => f owner (.getField i nm)
  | .uCol nm => f owner (.uCol nm)
  | .uFunc nm args w => do
      let ra ← exprsTransformUp f owner args
      let r ← f owner (.uFunc nm ra.1 w)
      pure (r.1, ra.2 && r.2)
  | .funcE nm args w k d => do
      let ra ← exprsTransformUp f owner args
      let r ← f owner (.funcE nm ra.1 w k d)
      pure (r.1, ra.2 && r.2)
  | .subquery q c => f owner (.subquery q c)

def exprsTransformUp (f : Node → Expr → Except AErr (Expr × Bool))
    (owner : Node) : List Expr → Except AErr (List Expr × Bool)
  | [] => pure ([], true)
  | e :: es => do
      let r ← exprTransformUp f owner e
      let rs ← exprsTransformUp f owner es
      pure (pickE e r :: rs.1, r.2 && rs.2)
end

mutual
/-- Modelled from the spec: `visit.NodesExprsWithNode` — applies an
expression-rewrite callback to every expression attached to every node of
the tree, bottom-up, handing the callback the node owning the expression.
Only `project` nodes carry expressions in this model. -/
def visitNodesExprs (f : Node → Expr → Except AErr (Expr × Bool)) :
    Node → Except AErr (Node × Bool)
  | .table nm cols => pure (.table nm cols, true)
  | .project es c => do
      let rc ← visitNodesExprs f c
      let owner := Node.project es (pick c rc)
      let re ← exprsTransformUp f owner es
      pure (.project re.1 (pick c rc), rc.2 && re.2)
  | .subqueryAlias nm cols c => do
      let rc ← visitNodesExprs f c
      pure (.subqueryAlias nm cols (pick c rc), rc.2)
  | .join jt sl l r => do
      let rl ← visitNodesExprs f l
      let rr ← visitNodesExprs f r
      pure (.join jt sl (pick l rl) (pick r rr), rl.2 && rr.2)
  | .indexedJoin l r => do
      let rl ← visitNodesExprs f l
      let rr ← visitNodesExprs f r
      pure (.indexedJoin (pick l rl) (pick r rr), rl.2 && rr.2)
  | .cachedResults c => do
      let rc ← visitNodesExprs f c
      pure (.cachedResults (pick c rc), rc.2)
  | .stripRowNode c k => do
      let rc ← visitNodesExprs f c
      pure (.stripRowNode (pick c rc) k, rc.2)
  | .triggerBlock b => do
      let rb ← visitNodesExprsList f b
      pure (.triggerBlock rb.1, rb.2)
  | .queryProcess c => do
      let rc ← visitNodesExprs f c
      pure (.queryProcess (pick c rc), rc.2)
  | .startTransaction c => do
      let rc ← visitNodesExprs f c
      pure (.startTransaction (pick c rc), rc.2)

def visitNodesExprsList (f : Node → Expr → Except AErr (Expr × Bool)) :
    List Node → Except AErr (List Node × Bool)
  | [] => pure ([], true)
  | n :: ns => do
      let r ← visitNodesExprs f n
      let rs ← visitNodesExprsList f ns
      pure (pick n r :: rs.1, r.2 && rs.2)
end

/-- Transform context for the context-aware traversal
(`visit.TransformContext`): the node, its parent (none at the root), and the
node's ordinal position among the parent's children. -/
structure TCtx where
  node : Node
  parent : Option Node
  childNum : Nat

/-- Run an optional selector; a missing selector admits every child. -/
def selOk (sel : Option (TCtx → Bool)) (c : TCtx) : Bool :=
  match sel with
  | none => true
  | some s => s c

mutual
/-- Modelled from the spec: `visit.NodesWithCtx` — the context-aware
bottom-up transform. For each child, the selector decides whether the
traversal descends into it (an unselected child is left untouched and the
callback is never applied inside it); the callback is applied to every
visited node, children first, receiving the node's parent and child
position. -/
def visitCtx (sel : Option (TCtx → Bool))
    (f : TCtx → Except AErr (Node × Bool)) :
    Node → Option Node → Nat → Except AErr (Node × Bool)
  | .table nm cols, p, i => f ⟨.table nm cols, p, i⟩
  | .project es c, p, i => do
      let n0 := Node.project es c
      let ec := if selOk sel ⟨c, some n0, 0⟩ then visitCtx sel f c (some n0) 0
                else pure (c, true)
      let rc ← ec
      let r ← f ⟨.project es (pick c rc), p, i⟩
      pure (r.1, rc.2 && r.2)
  | .subqueryAlias nm cols c, p, i => do
      let n0 := Node.subqueryAlias nm cols c
      let ec := if selOk sel ⟨c, some n0, 0⟩ then visitCtx sel f c (some n0) 0
                else pure (c, true)
      let rc ← ec
      let r ← f ⟨.subqueryAlias nm cols (pick c rc), p, i⟩
      pure (r.1, rc.2 && r.2)
  | .join jt sl l r, p, i => do
      let n0 := Node.join jt sl l r
      let ecl := if selOk sel ⟨l, some n0, 0⟩ then visitCtx sel f l (some n0) 0
                 else pure (l, true)
      let ecr := if selOk sel ⟨r, some n0, 1⟩ then visitCtx sel f r (some n0) 1
                 else pure (r, true)
      let rl ← ecl
      let rr ← ecr
      let res ← f ⟨.join jt sl (pick l rl) (pick r rr), p, i⟩
      pure (res.1, rl.2 && rr.2 && res.2)
  | .indexedJoin l r, p, i => do
      let n0 := Node.indexedJoin l r
      let ecl := if selOk sel ⟨l, some n0, 0⟩ then visitCtx sel f l (some n0) 0
                 else pure (l, true)
      let ecr := if selOk sel ⟨r, some n0, 1⟩ then visitCtx sel f r (some n0) 1
                 else pure (r, true)
      let rl ← ecl
      let rr ← ecr
      let res ← f ⟨.indexedJoin (pick l rl) (pick r rr), p, i⟩
      pure (res.1, rl.2 && rr.2 && res.2)
  | .cachedResults c, p, i => do
      let n0 := Node.cachedResults c
      let ec := if selOk sel ⟨c, some n0, 0⟩ then visitCtx sel f c (some n0) 0
                else pure (c, true)
      let rc ← ec
      let r ← f ⟨.cachedResults (pick c rc), p, i⟩
      pure (r.1, rc.2 && r.2)
  | .stripRowNode c k, p, i => do
      let n0 := Node.stripRowNode c k
      let ec := if selOk sel ⟨c, some n0, 0⟩ then visitCtx sel f c (some n0) 0
                else pure (c, true)
      let rc ← ec
      let r ← f ⟨.stripRowNode (pick c rc) k, p, i⟩
      pure (r.1, rc.2 && r.2)
  | .triggerBlock b, p, i => do
      let rb ← visitCtxList sel f (Node.triggerBlock b) 0 b
      let r ← f ⟨.triggerBlock rb.1, p, i⟩
      pure (r.1, rb.2 && r.2)
  | .queryProcess c, p, i => do
      let n0 := Node.queryProcess c
      let ec := if selOk sel ⟨c, some n0, 0⟩ then visitCtx sel f c (some n0) 0
                else pure (c, true)
      let rc ← ec
      let r ← f ⟨.queryProcess (pick c rc), p, i⟩
      pure (r.1, rc.2 && r.2)
  | .startTransaction c, p, i => do
      let n0 := Node.startTransaction c
      let ec := if selOk sel ⟨c, some n0, 0⟩ then visitCtx sel f c (some n0) 0
                else pure (c, true)
      let rc ← ec
      let r ← f ⟨.startTransaction (pick c rc), p, i⟩
      pure (r.1, rc.2 && r.2)

def visitCtxList (sel : Option (TCtx → Bool))
    (f : TCtx → Except AErr (Node × Bool)) (parent : Node) (idx : Nat) :
    List Node → Except AErr (List Node × Bool)
  | [] => pure ([], true)
  | n :: ns => do
      let ec := if selOk sel ⟨n, some parent, idx⟩ then
                  visitCtx sel f n (some parent) idx
                else pure (n, true)
      let r ← ec
      let rs ← visitCtxList sel f parent (idx + 1) ns
      pure (pick n r :: rs.1, r.2 && rs.2)
end

/-- Entry point of the context-aware traversal: the root has no parent. -/
def visitNodesWithCtx (n : Node) (sel : Option (TCtx → Bool))
    (f : TCtx → Except AErr (Node × Bool)) : Except AErr (Node × Bool) :=
  visitCtx sel f n none 0

mutual
/-- `plan.TransformUp`: bottom-up node transform without change-identity
tracking (children first, then the callback on the rebuilt node); errors
abort. -/
def TransformUp (f : Node → Except AErr Node) : Node → Except AErr Node
  | .table nm cols => f (.table nm cols)
  | .project es c => do f (.project es (← TransformUp f c))
  | .subqueryAlias nm cols c => do f (.subqueryAlias nm cols (← TransformUp f c))
  | .join jt sl l r => do f (.join jt sl (← TransformUp f l) (← TransformUp f r))
  | .indexedJoin l r => do f (.indexedJoin (← TransformUp f l) (← TransformUp f r))
  | .cachedResults c => do f (.cachedResults (← TransformUp f c))
  | .stripRowNode c k => do f (.stripRowNode (← TransformUp f c) k)
  | .triggerBlock b => do f (.triggerBlock (← TransformUpList f b))
  | .queryProcess c => do f (.queryProcess (← TransformUp f c))
  | .startTransaction c => do f (.startTransaction (← TransformUp f c))

def TransformUpList (f : Node → Except AErr Node) :
    List Node → Except AErr (List Node)
  | [] => pure []
  | n :: ns => do pure ((← TransformUp f n) :: (← TransformUpList f ns))
end

mutual
/-- Bottom-up transform of a single expression tree without an owner
(`expression.TransformUp`): expression children first, then the callback. -/
def exprTransformUpNoCtx (f : Expr → Except AErr Expr) : Expr → Except AErr Expr
  | .literal v => f (.literal v)
  | .getField i nm => f (.getField i nm)
  | .uCol nm => f (.uCol nm)
  | .uFunc nm args w => do f (.uFunc nm (← exprsTransformUpNoCtx f args) w)
  | .funcE nm args w k d => do f (.funcE nm (← exprsTransformUpNoCtx f args) w k d)
  | .subquery q c => f (.subquery q c)

def exprsTransformUpNoCtx (f : Expr → Except AErr Expr) :
    List Expr → Except AErr (List Expr)
  | [] => pure []
  | e :: es => do
      pure ((← exprTransformUpNoCtx f e) :: (← exprsTransformUpNoCtx f es))
end

/-- `plan.TransformExpressionsUp` restricted to one node: applies the
expression transform to each expression attached to the node (the node-tree
recursion is supplied by the enclosing `TransformUp` in `resolveFunctions`). -/
def TransformExpressionsUp (f : Expr → Except AErr Expr) :
    Node → Except AErr Node
  | .project es c => do pure (.project (← exprsTransformUpNoCtx f es) c)
  | n => pure n

/-- Result of a recursive analysis invocation: the (possibly partially)
analyzed node, the change-identity flag, and an optional error. The Go
analyzer returns all three, and the returned node may hold partial progress
even when an error is reported. -/
structure ARes where
  node : Node
  same : Bool
  err : Option AErr

/-- The recursive-analysis entry points (`Analyzer.analyzeThroughBatch`,
`analyzeStartingAtBatch`, `analyzeWithSelector`) are not among the sources;
the rules below are parameterized by the analysis function they invoke. -/
def Analyzer := Node → Scope → ARes

/-- `nodesEqual`: deep structural equality of two plan trees. -/
def nodesEqual (a b : Node) : Bool := a.eqb b

/-- The per-node closure of `resolveSubqueries` / `finalizeSubqueries` (the
two rules carry textually identical closures, differing only in which
analysis entry point the closure invokes — here the `analyze` parameter):
for a `SubqueryAlias`, recursively analyze the child plan with a nil (empty)
scope, then check an explicit column-alias list against the child's output
arity (`ColumnCountMismatch` on disagreement), and splice the analyzed child
back in after stripping passthrough nodes when the analysis changed it. -/
def subqueryAliasStep (analyze : Analyzer) (m : Node) :
    Except AErr (Node × Bool) :=
  match m with
  | .subqueryAlias nm cols c =>
      -- subqueries do not have access to outer scope
      let r := analyze c []
      match r.err with
      | some e => .error e
      | none =>
          if 0 < cols.length ∧ schemaLength c ≠ cols.length then
            .error .columnCountMismatch
          else if r.same then
            pure (.subqueryAlias nm cols c, true)
          else
            pure (.subqueryAlias nm cols (StripPassthroughNodes r.node), false)
  | m' => pure (m', true)

/-- `resolveSubqueries`: applies `subqueryAliasStep` over the whole tree,
invoking the analysis through the default rule batch
(`analyzeThroughBatch`) with a nil scope. The rule's own scope argument is
never consulted. -/
def resolveSubqueries (analyzeThroughBatch : Analyzer) (_scope : Scope)
    (n : Node) : Except AErr (Node × Bool) :=
  visitNodes (subqueryAliasStep analyzeThroughBatch) n

/-- `finalizeSubqueries`: the late variant of `resolveSubqueries`, invoking
the analysis starting at the default batch (`analyzeStartingAtBatch`, again
with a nil scope); the body is otherwise identical. -/
def finalizeSubqueries (analyzeStartingAtBatch : Analyzer) (_scope : Scope)
    (n : Node) : Except AErr (Node × Bool) :=
  visitNodes (subqueryAliasStep analyzeStartingAtBatch) n

/-- Classification of the errors `resolveSubqueryExpressions` defers to a
later pass: `ErrValidationResolved`, `sql.ErrTableColumnNotFound`, and
`sql.ErrColumnNotFound`. -/
def AErr.isDeferred : AErr → Bool
  | .validationResolved => true
  | .tableColumnNotFound => true
  | .columnNotFound => true
  | _ => false

/-- The per-expression closure of `resolveSubqueryExpressions`: re-analyzes
a subquery expression's inner query against a scope one level deeper than
its owning node (even when already resolved). Deferred-class errors keep the
partially analyzed inner query and report no error; all other errors
propagate. -/
def subqueryExprStep (analyzeWithSelector : Analyzer) (scope : Scope)
    (owner : Node) (e : Expr) : Except AErr (Expr × Bool) :=
  match e with
  | .subquery q cached =>
      let subScope := scope.newScope owner
      let a := analyzeWithSelector q subScope
      match a.err with
      | some err =>
          if err.isDeferred then
            -- keep the work we have and defer the remainder of the
            -- analysis of this subquery until a later pass
            pure (.subquery a.node cached, a.same)
          else .error err
      | none =>
          if a.same then pure (.subquery q cached, true)
          else pure (.subquery (StripPassthroughNodes a.node) cached, false)
  | e' => pure (e', true)

/-- `resolveSubqueryExpressions`: applies `subqueryExprStep` to every
subquery expression in the tree; the rule returns the input tree with `Same`
when the rewritten tree is deep-equal to the input, and the rewritten tree
with `NewTree` otherwise. -/
def resolveSubqueryExpressions (analyzeWithSelector : Analyzer)
    (scope : Scope) (n : Node) : Except AErr (Node × Bool) := do
  let r ← visitNodesExprs (subqueryExprStep analyzeWithSelector scope) n
  if nodesEqual r.1 n then pure (n, true) else pure (r.1, false)

mutual
/-- `exprIsCacheable`: inspects an expression; a `GetField` whose index lies
below `lowestAllowedIdx` or any sub-expression reporting itself
non-deterministic makes the expression non-cacheable (the inner plan of a
subquery expression is not an expression child and is not inspected). -/
def exprIsCacheable (lowestAllowedIdx : Nat) : Expr → Bool
  | .literal _ => true
  | .getField i _ => if i < lowestAllowedIdx then false else true
  | .uCol _ => true
  | .uFunc _ args _ => exprsCacheable lowestAllowedIdx args
  | .funcE _ args _ _ nd =>
      if nd then false else exprsCacheable lowestAllowedIdx args
  | .subquery _ _ => true

def exprsCacheable (lowestAllowedIdx : Nat) : List Expr → Bool
  | [] => true
  | e :: es =>
      exprIsCacheable lowestAllowedIdx e && exprsCacheable lowestAllowedIdx es
end

mutual
/-- `nodeIsCacheable`: every expression attached to every inspected node must
be cacheable; a `SubqueryAlias` stops the walk and is treated as cacheable at
its own level. -/
def nodeIsCacheable (lowestAllowedIdx : Nat) : Node → Bool
  | .table _ _ => true
  | .project es c =>
      exprsCacheable lowestAllowedIdx es && nodeIsCacheable lowestAllowedIdx c
  | .subqueryAlias _ _ _ => true
  | .join _ _ l r =>
      nodeIsCacheable lowestAllowedIdx l && nodeIsCacheable lowestAllowedIdx r
  | .indexedJoin l r =>
      nodeIsCacheable lowestAllowedIdx l && nodeIsCacheable lowestAllowedIdx r
  | .cachedResults c => nodeIsCacheable lowestAllowedIdx c
  | .stripRowNode c _ => nodeIsCacheable lowestAllowedIdx c
  | .triggerBlock b => nodesCacheable lowestAllowedIdx b
  | .queryProcess c => nodeIsCacheable lowestAllowedIdx c
  | .startTransaction c => nodeIsCacheable lowestAllowedIdx c

def nodesCacheable (lowestAllowedIdx : Nat) : List Node → Bool
  | [] => true
  | n :: ns =>
      nodeIsCacheable lowestAllowedIdx n && nodesCacheable lowestAllowedIdx ns
end

/-- The per-expression closure of `cacheSubqueryResults`: a resolved
subquery expression whose inner query is cacheable with respect to the width
of the owning node's derived scope is marked `WithCachedResults`. -/
def cacheSubqueryStep (scope : Scope) (owner : Node) (e : Expr) :
    Except AErr (Expr × Bool) :=
  match e with
  | .subquery q cached =>
      if !q.resolvedB then pure (.subquery q cached, true)
      else
        let scopeLen := (scope.newScope owner).schema.length
        if nodeIsCacheable scopeLen q then
          pure (.subquery q true, false)
        else pure (.subquery q cached, true)
  | e' => pure (e', true)

/-- `cacheSubqueryResults`: marks every resolved, cacheable subquery
expression. A tree whose root is a `TriggerBeginEndBlock` is returned
unchanged (the analyzer is recursively invoked on trigger blocks). -/
def cacheSubqueryResults (scope : Scope) (n : Node) :
    Except AErr (Node × Bool) :=
  match n with
  | .triggerBlock b => pure (.triggerBlock b, true)
  | _ => visitNodesExprs (cacheSubqueryStep scope) n

/-- The wrap phase of `cacheSubqueryAlisesInJoins`: a `SubqueryAlias`
standing directly under a join (or indexed join) parent is wrapped in a
`CachedResults` decorator. -/
def wrapJoinSAStep (c : TCtx) : Except AErr (Node × Bool) :=
  let isJoin := match c.parent with
    | some (.join _ _ _ _) => true
    | _ => false
  let isIndexedJoin := match c.parent with
    | some (.indexedJoin _ _) => true
    | _ => false
  if isJoin || isIndexedJoin then
    match c.node with
    | .subqueryAlias nm cols ch =>
        -- SubqueryAliases are always cacheable: they cannot reference
        -- their outside scope
        pure (.cachedResults (.subqueryAlias nm cols ch), false)
    | m => pure (m, true)
  else pure (c.node, true)

/-- The selector of the decorator-removal phase: under an indexed join only
child 0 is visited; under a join, child 1 for a right join and child 0 for
every other join kind; under any other parent, every child. -/
def primaryChildSelector (c : TCtx) : Bool :=
  match c.parent with
  | some (.indexedJoin _ _) => c.childNum == 0
  | some (.join jt _ _ _) =>
      if jt == JoinType.rightOuter then c.childNum == 1
      else c.childNum == 0
  | _ => true

def removeCRStep (c : TCtx) : Except AErr (Node × Bool) :=
  match c.node with
  | .cachedResults ch => pure (ch, false)
  | m => pure (m, true)

/-- `cacheSubqueryAlisesInJoins`: wraps every `SubqueryAlias` standing
directly under a join (or indexed join) in a `CachedResults` decorator;
then, only when the scope is nil (top of the tree), removes `CachedResults`
decorators along the most-primary path selected by
`primaryChildSelector`. -/
def cacheSubqueryAlisesInJoins (scope : Scope) (n : Node) :
    Except AErr (Node × Bool) := do
  let ra ← visitNodesWithCtx n none wrapJoinSAStep
  -- If the most primary table in the top level join is a CachedResults,
  -- remove it. We only want to do this if we're at the top of the tree.
  match scope with
  | [] =>
      let rd ← visitNodesWithCtx ra.1 (some primaryChildSelector) removeCRStep
      pure (rd.1, ra.2 && rd.2)
  | _ => pure (ra.1, ra.2)

/-- The per-node closure of `setJoinScopeLen`: a join node is annotated
with the scope length (`WithScopeLen`); when its left child is not already a
`StripRowNode`, both children are wrapped in `StripRowNode` adapters of that
width (`NewTree`); otherwise the annotated join is returned with `Same`. -/
def joinScopeLenStep (scopeLen : Nat) (m : Node) :
    Except AErr (Node × Bool) :=
  match m with
  | .join jt _ l r =>
      match l with
      | .stripRowNode c k =>
          pure (.join jt scopeLen (.stripRowNode c k) r, true)
      | _ =>
          pure (.join jt scopeLen (.stripRowNode l scopeLen)
            (.stripRowNode r scopeLen), false)
  | m' => pure (m', true)

/-- `setJoinScopeLen`: no-op with `Same` when the outer scope is empty;
otherwise applies `joinScopeLenStep` with the scope's schema width to every
node of the tree. -/
def setJoinScopeLen (scope : Scope) (n : Node) : Except AErr (Node × Bool) :=
  let scopeLen := scope.schema.length
  if scopeLen = 0 then pure (n, true)
  else visitNodes (joinScopeLenStep scopeLen) n

/-- A function implementation held by the catalog: its kind and whether its
instances report themselves non-deterministic. -/
structure FuncImpl where
  kind : FuncKind
  nd : Bool

/-- The catalog's `Function(name)` lookup (external collaborator). -/
def Catalog := String → Option FuncImpl

/-- `resolveFunctionsInExpr`: replaces an unresolved function call by an
instance built from the call's argument list; the window specification the
unresolved call carried separately is reattached only when the instance is a
window aggregation or an aggregation. A catalog miss is `UnknownFunction`. -/
def resolveFunctionsInExpr (cat : Catalog) (e : Expr) : Except AErr Expr :=
  if e.resolvedB then pure e
  else
    match e with
    | .uFunc nm args w =>
        match cat nm with
        | none => .error (.unknownFunction nm)
        | some impl =>
            match impl.kind with
            | .windowAggregation => pure (.funcE nm args w impl.kind impl.nd)
            | .aggregation => pure (.funcE nm args w impl.kind impl.nd)
            | .scalar => pure (.funcE nm args none impl.kind impl.nd)
    | e' => pure e'

/-- The per-node closure of `resolveFunctions`: resolved nodes are skipped;
the expressions of each remaining node are rewritten with
`resolveFunctionsInExpr`. -/
def resolveFunctionsStep (cat : Catalog) (m : Node) : Except AErr Node :=
  if m.resolvedB then pure m
  else TransformExpressionsUp (resolveFunctionsInExpr cat) m

/-- `resolveFunctions`: bottom-up over the tree with
`resolveFunctionsStep`. -/
def resolveFunctions (cat : Catalog) (n : Node) : Except AErr Node :=
  TransformUp (resolveFunctionsStep cat) n

/-- A database as seen by `createTriggerIter`: its name, whether it
implements `sql.TriggerDatabase`, and the outcome of `CreateTrigger`. -/
structure TriggerDb where
  name : String
  supportsTriggers : Bool
  createTriggerErr : Option AErr

/-- State of a `createTriggerIter`: whether the `sync.Once` has fired, and
how many times `CreateTrigger` has been invoked on the database. -/
structure CreateTriggerIterState where
  ran : Bool
  createCalls : Nat

/-- The freshly built iterator state (`RowIter` returns it). -/
def freshTriggerIter : CreateTriggerIterState := ⟨false, 0⟩

/-- Outcomes of `createTriggerIter.Next`. -/
inductive TriggerRowResult where
  | okRow
  | eof
  | errTriggersNotSupported (dbName : String)
  | err (e : AErr)
deriving DecidableEq, Repr

/-- `createTriggerIter.Next`: after the first call, `io.EOF`; on the first
call, `TriggersNotSupported` when the database lacks the capability,
otherwise the result of `CreateTrigger` (an OK row on success). -/
def createTriggerIterNext (db : TriggerDb) (s : CreateTriggerIterState) :
    TriggerRowResult × CreateTriggerIterState :=
  if s.ran then (.eof, s)
  else
    if !db.supportsTriggers then
      (.errTriggersNotSupported db.name, ⟨true, s.createCalls⟩)
    else
      match db.createTriggerErr with
      | some e => (.err e, ⟨true, s.createCalls + 1⟩)
      | none => (.okRow, ⟨true, s.createCalls + 1⟩)

/-- Iterate `Next` a number of times, discarding the row results. -/
def iterTriggerN (db : TriggerDb) : Nat → CreateTriggerIterState →
    CreateTriggerIterState
  | 0, s => s
  | k + 1, s => iterTriggerN db k (createTriggerIterNext db s).2

/-- Modelled from the spec: column resolution against a scope, the one piece
of the recursive analysis the scope-opacity claim needs (the rule batches
behind `analyzeThroughBatch` are not among the sources). An unresolved
column resolves to a `GetField` over the columns visible from the outer
scope followed by the node's own child schema; a name visible nowhere is the
deferred-class `columnNotFound` error, and partial progress is kept. -/
def resolveColExpr (avail : List String) : Expr → Except AErr Expr
  | .uCol nm =>
      match avail.findIdx? (fun s => s == nm) with
      | some i => pure (.getField i nm)
      | none => .error .columnNotFound
  | e => pure e

def resolveColsInExprs (avail : List String) :
    List Expr → Except AErr (List Expr)
  | [] => pure []
  | e :: es => do
      pure ((← resolveColExpr avail e) :: (← resolveColsInExprs avail es))

/-- Modelled from the spec: the minimal recursive-analysis model used to
witness scope-opacity — it resolves the unresolved columns of a projection
against the scope's schema followed by the child's schema. -/
def analyzeColumnsModel : Analyzer := fun n sc =>
  match n with
  | .project es c =>
      let avail := sc.schema ++ c.schema
      match resolveColsInExprs avail es with
      | .ok es' => ⟨.project es' c, exprsEqb es' es, none⟩
      | .error e => ⟨.project es c, true, some e⟩
  | m => ⟨m, true, none⟩

/-- The identity analysis: returns its input unchanged, `Same`, no error
(used to isolate a single rule's own behavior from the recursive batches). -/
def idAnalyzer : Analyzer := fun q _ => ⟨q, true, none⟩

/-! ### Specification-side predicates (written from the spec's words, to be
compared with the code-side functions) -/

/-- True iff the node is a `StripRowNode` adapter. -/
def isStripNode : Node → Bool
  | .stripRowNode _ _ => true
  | _ => false

/-- True iff the node is not a `SubqueryAlias`. -/
def notSA : Node → Bool
  | .subqueryAlias _ _ _ => false
  | _ => true

/-- True iff an optional parent node is a join or an indexed join. -/
def parentJoinish : Option Node → Bool
  | some (.join _ _ _ _) => true
  | some (.indexedJoin _ _) => true
  | _ => false

mutual
/-- Every join node whose left child is already a `StripRowNode` adapter
carries the scope-length annotation `len` (the trees produced by
`setJoinScopeLen` itself have this shape). -/
def joinsAnnotated (len : Nat) : Node → Bool
  | .table _ _ => true
  | .project _ c => joinsAnnotated len c
  | .subqueryAlias _ _ c => joinsAnnotated len c
  | .join _ sl l r =>
      (if isStripNode l then sl == len else true) &&
        joinsAnnotated len l && joinsAnnotated len r
  | .indexedJoin l r => joinsAnnotated len l && joinsAnnotated len r
  | .cachedResults c => joinsAnnotated len c
  | .stripRowNode c _ => joinsAnnotated len c
  | .triggerBlock b => joinsAnnotatedL len b
  | .queryProcess c => joinsAnnotated len c
  | .startTransaction c => joinsAnnotated len c

def joinsAnnotatedL (len : Nat) : List Node → Bool
  | [] => true
  | n :: ns => joinsAnnotated len n && joinsAnnotatedL len ns
end

mutual
/-- The spec's description of a join tree after scope propagation: every
join is annotated with the outer scope's width and has a strip-leading-N
adapter as its immediate left child. -/
def joinsWellFormed (len : Nat) : Node → Bool
  | .table _ _ => true
  | .project _ c => joinsWellFormed len c
  | .subqueryAlias _ _ c => joinsWellFormed len c
  | .join _ sl l r =>
      (sl == len) && isStripNode l &&
        joinsWellFormed len l && joinsWellFormed len r
  | .indexedJoin l r => joinsWellFormed len l && joinsWellFormed len r
  | .cachedResults c => joinsWellFormed len c
  | .stripRowNode c _ => joinsWellFormed len c
  | .triggerBlock b => joinsWellFormedL len b
  | .queryProcess c => joinsWellFormed len c
  | .startTransaction c => joinsWellFormed len c

def joinsWellFormedL (len : Nat) : List Node → Bool
  | [] => true
  | n :: ns => joinsWellFormed len n && joinsWellFormedL len ns
end

mutual
/-- A `GetField` with index strictly below `low` occurs in the expression
(over the same expression-children structure `sql.Inspect` walks: the inner
plan of a subquery expression is not an expression child). -/
def exprHasLowGF (low : Nat) : Expr → Bool
  | .literal _ => false
  | .getField i _ => decide (i < low)
  | .uCol _ => false
  | .uFunc _ args _ => exprsHaveLowGF low args
  | .funcE _ args _ _ _ => exprsHaveLowGF low args
  | .subquery _ _ => false

def exprsHaveLowGF (low : Nat) : List Expr → Bool
  | [] => false
  | e :: es => exprHasLowGF low e || exprsHaveLowGF low es
end

mutual
/-- A sub-expression reporting itself non-deterministic occurs in the
expression (same traversal structure as `exprHasLowGF`). -/
def exprHasNondet : Expr → Bool
  | .literal _ => false
  | .getField _ _ => false
  | .uCol _ => false
  | .uFunc _ args _ => exprsHaveNondet args
  | .funcE _ args _ _ nd => nd || exprsHaveNondet args
  | .subquery _ _ => false

def exprsHaveNondet : List Expr → Bool
  | [] => false
  | e :: es => exprHasNondet e || exprsHaveNondet es
end

mutual
/-- Every `GetField` index in the whole plan — including beneath
`SubqueryAlias` boundaries and inside the inner plans of nested subquery
expressions — is at least `low` ("references only columns at or above the
given minimum index"). -/
def nodeGFge (low : Nat) : Node → Bool
  | .table _ _ => true
  | .project es c => exprsGFge low es && nodeGFge low c
  | .subqueryAlias _ _ c => nodeGFge low c
  | .join _ _ l r => nodeGFge low l && nodeGFge low r
  | .indexedJoin l r => nodeGFge low l && nodeGFge low r
  | .cachedResults c => nodeGFge low c
  | .stripRowNode c _ => nodeGFge low c
  | .triggerBlock b => nodesGFge low b
  | .queryProcess c => nodeGFge low c
  | .startTransaction c => nodeGFge low c

def nodesGFge (low : Nat) : List Node → Bool
  | [] => true
  | n :: ns => nodeGFge low n && nodesGFge low ns

def exprGFge (low : Nat) : Expr → Bool
  | .literal _ => true
  | .getField i _ => decide (low ≤ i)
  | .uCol _ => true
  | .uFunc _ args _ => exprsGFge low args
  | .funcE _ args _ _ _ => exprsGFge low args
  | .subquery q _ => nodeGFge low q

def exprsGFge (low : Nat) : List Expr → Bool
  | [] => true
  | e :: es => exprGFge low e && exprsGFge low es
end

mutual
/-- No expression anywhere in the plan — including beneath `SubqueryAlias`
boundaries and inside nested subquery expressions — reports itself
non-deterministic. -/
def nodeNoNondet : Node → Bool
  | .table _ _ => true
  | .project es c => exprsNoNondet es && nodeNoNondet c
  | .subqueryAlias _ _ c => nodeNoNondet c
  | .join _ _ l r => nodeNoNondet l && nodeNoNondet r
  | .indexedJoin l r => nodeNoNondet l && nodeNoNondet r
  | .cachedResults c => nodeNoNondet c
  | .stripRowNode c _ => nodeNoNondet c
  | .triggerBlock b => nodesNoNondet b
  | .queryProcess c => nodeNoNondet c
  | .startTransaction c => nodeNoNondet c

def nodesNoNondet : List Node → Bool
  | [] => true
  | n :: ns => nodeNoNondet n && nodesNoNondet ns

def exprNoNondet : Expr → Bool
  | .literal _ => true
  | .getField _ _ => true
  | .uCol _ => true
  | .uFunc _ args _ => exprsNoNondet args
  | .funcE _ args _ _ nd => !nd && exprsNoNondet args
  | .subquery q _ => nodeNoNondet q

def exprsNoNondet : List Expr → Bool
  | [] => true
  | e :: es => exprNoNondet e && exprsNoNondet es
end

mutual
/-- No join (or indexed join) in the tree has a bare `SubqueryAlias` as a
direct child (they are all wrapped in decorators). -/
def noBareSAUnderJoin : Node → Bool
  | .table _ _ => true
  | .project _ c => noBareSAUnderJoin c
  | .subqueryAlias _ _ c => noBareSAUnderJoin c
  | .join _ _ l r =>
      notSA l && notSA r && noBareSAUnderJoin l && noBareSAUnderJoin r
  | .indexedJoin l r =>
      notSA l && notSA r && noBareSAUnderJoin l && noBareSAUnderJoin r
  | .cachedResults c => noBareSAUnderJoin c
  | .stripRowNode c _ => noBareSAUnderJoin c
  | .triggerBlock b => noBareSAUnderJoinL b
  | .queryProcess c => noBareSAUnderJoin c
  | .startTransaction c => noBareSAUnderJoin c

def noBareSAUnderJoinL : List Node → Bool
  | [] => true
  | n :: ns => noBareSAUnderJoin n && noBareSAUnderJoinL ns
end

mutual
/-- No `CachedResults` decorator remains along the most-primary paths (the
paths admitted by `primaryChildSelector`): the node itself is not a
`CachedResults`, and the property holds recursively for the primary child of
each join (the right child of a right join, the left child otherwise, the
left child of an indexed join) and for every child of a non-join node. -/
def noCROnPrimaryPaths : Node → Bool
  | .table _ _ => true
  | .project _ c => noCROnPrimaryPaths c
  | .subqueryAlias _ _ c => noCROnPrimaryPaths c
  | .join jt _ l r =>
      if jt == JoinType.rightOuter then noCROnPrimaryPaths r
      else noCROnPrimaryPaths l
  | .indexedJoin l _ => noCROnPrimaryPaths l
  | .cachedResults _ => false
  | .stripRowNode c _ => noCROnPrimaryPaths c
  | .triggerBlock b => noCROnPrimaryPathsL b
  | .queryProcess c => noCROnPrimaryPaths c
  | .startTransaction c => noCROnPrimaryPaths c

def noCROnPrimaryPathsL : List Node → Bool
  | [] => true
  | n :: ns => noCROnPrimaryPaths n && noCROnPrimaryPathsL ns
end

mutual
/-- Some `SubqueryAlias` in the tree carries a non-empty explicit
column-alias list whose length disagrees with its child's output arity. -/
def hasMismatchSA : Node → Bool
  | .table _ _ => false
  | .project _ c => hasMismatchSA c
  | .subqueryAlias _ cols c =>
      (decide (0 < cols.length) && decide (schemaLength c ≠ cols.length)) ||
        hasMismatchSA c
  | .join _ _ l r => hasMismatchSA l || hasMismatchSA r
  | .indexedJoin l r => hasMismatchSA l || hasMismatchSA r
  | .cachedResults c => hasMismatchSA c
  | .stripRowNode c _ => hasMismatchSA c
  | .triggerBlock b => hasMismatchSAL b
  | .queryProcess c => hasMismatchSA c
  | .startTransaction c => hasMismatchSA c

def hasMismatchSAL : List Node → Bool
  | [] => false
  | n :: ns => hasMismatchSA n || hasMismatchSAL ns
end

mutual
/-- No unresolved function call remains in the expressions attached to the
tree's nodes (the inner plans of subquery expressions, which function
resolution does not enter, are exempt). -/
def noUFuncN : Node → Bool
  | .table _ _ => true
  | .project es c => noUFuncEs es && noUFuncN c
  | .subqueryAlias _ _ c => noUFuncN c
  | .join _ _ l r => noUFuncN l && noUFuncN r
  | .indexedJoin l r => noUFuncN l && noUFuncN r
  | .cachedResults c => noUFuncN c
  | .stripRowNode c _ => noUFuncN c
  | .triggerBlock b => noUFuncNs b
  | .queryProcess c => noUFuncN c
  | .startTransaction c => noUFuncN c

def noUFuncNs : List Node → Bool
  | [] => true
  | n :: ns => noUFuncN n && noUFuncNs ns

def noUFuncE : Expr → Bool
  | .literal _ => true
  | .getField _ _ => true
  | .uCol _ => true
  | .uFunc _ _ _ => false
  | .funcE _ args _ _ _ => noUFuncEs args
  | .subquery _ _ => true

def noUFuncEs : List Expr → Bool
  | [] => true
  | e :: es => noUFuncE e && noUFuncEs es
end

mutual
/-- Every unresolved function call in the expressions attached to the tree's
nodes names a function the catalog resolves. -/
def uFuncsKnownN (cat : Catalog) : Node → Bool
  | .table _ _ => true
  | .project es c => uFuncsKnownEs cat es && uFuncsKnownN cat c
  | .subqueryAlias _ _ c => uFuncsKnownN cat c
  | .join _ _ l r => uFuncsKnownN cat l && uFuncsKnownN cat r
  | .indexedJoin l r => uFuncsKnownN cat l && uFuncsKnownN cat r
  | .cachedResults c => uFuncsKnownN cat c
  | .stripRowNode c _ => uFuncsKnownN cat c
  | .triggerBlock b => uFuncsKnownNs cat b
  | .queryProcess c => uFuncsKnownN cat c
  | .startTransaction c => uFuncsKnownN cat c

def uFuncsKnownNs (cat : Catalog) : List Node → Bool
  | [] => true
  | n :: ns => uFuncsKnownN cat n && uFuncsKnownNs cat ns

def uFuncsKnownE (cat : Catalog) : Expr → Bool
  | .literal _ => true
  | .getField _ _ => true
  | .uCol _ => true
  | .uFunc nm args _ => (cat nm).isSome && uFuncsKnownEs cat args
  | .funcE _ args _ _ _ => uFuncsKnownEs cat args
  | .subquery _ _ => true

def uFuncsKnownEs (cat : Catalog) : List Expr → Bool
  | [] => true
  | e :: es => uFuncsKnownE cat e && uFuncsKnownEs cat es
end

/-! ### Concrete example inputs -/

/-- A two-column outer scope (schema width 2). -/
def egScope2 : Scope := [Node.table "t" ["a", "b"]]

/-- A one-column outer scope providing the outer-only column `o`. -/
def egOuterScope : Scope := [Node.table "outerT" ["o"]]

/-- A join whose left child is already a `StripRowNode` but whose
scope-length annotation (0) disagrees with the outer scope width (2). -/
def egStaleJoin : Node :=
  .join .inner 0 (.stripRowNode (.table "u" ["x"]) 2) (.table "v" ["y"])

/-- `egStaleJoin` with its annotation refreshed to 2 — what `setJoinScopeLen`
actually returns on `egStaleJoin` (together with `Same`). -/
def egStaleJoinOut : Node :=
  .join .inner 2 (.stripRowNode (.table "u" ["x"]) 2) (.table "v" ["y"])

/-- A correctly annotated join with a `StripRowNode` left child. -/
def egAnnotatedJoin : Node :=
  .join .inner 2 (.stripRowNode (.table "u" ["x"]) 2) (.table "v" ["y"])

/-- A join whose right child is already a `StripRowNode` adapter but whose
left child is not. -/
def egRightStripJoin : Node :=
  .join .inner 0 (.table "u" ["x"]) (.stripRowNode (.table "v" ["y"]) 2)

/-- What `setJoinScopeLen` returns on `egRightStripJoin` under `egScope2`:
both children wrapped, the already-stripped right child wrapped a second
time. -/
def egRightStripJoinOut : Node :=
  .join .inner 2 (.stripRowNode (.table "u" ["x"]) 2)
    (.stripRowNode (.stripRowNode (.table "v" ["y"]) 2) 2)

/-- The output the claim's per-operand reading prescribes on
`egRightStripJoin`: the right operand, already an adapter, left unwrapped. -/
def egRightStripJoinClaim : Node :=
  .join .inner 2 (.stripRowNode (.table "u" ["x"]) 2)
    (.stripRowNode (.table "v" ["y"]) 2)

/-- `(SELECT 1) AS s1` — a subquery alias over a literal projection. -/
def egSA1 : Node :=
  .subqueryAlias "s1" [] (.project [.literal 1] (.table "dual" []))

/-- `(SELECT 2) AS s2`. -/
def egSA2 : Node :=
  .subqueryAlias "s2" [] (.project [.literal 2] (.table "dual" []))

/-- A resolved inner query over table `t` referencing only field index 1. -/
def egQueryHi : Node := .project [.getField 1 "o"] (.table "t" ["a"])

/-- `egQueryHi` with one extra column reference below the scope width
(field index 0). -/
def egQueryLo : Node :=
  .project [.getField 1 "o", .getField 0 "p"] (.table "t" ["a"])

/-- A statement with a subquery expression over `egQueryHi`; the owning
projection's schema has width 1, so the derived scope width is 1. -/
def egStmtHi : Node := .project [.subquery egQueryHi false] (.table "w" [])

/-- The same statement with the inner query referencing field index 0,
below the derived scope width. -/
def egStmtLo : Node := .project [.subquery egQueryLo false] (.table "w" [])

/-- A resolved, cacheable inner query for the trigger-block example. -/
def egTrigQuery : Node := .project [.literal 1] (.table "d" ["x"])

/-- A statement node in a trigger block's body holding a subquery
expression. -/
def egTrigStmt : Node :=
  .project [.subquery egTrigQuery false] (.table "t" ["a"])

/-- A tree whose root is not a trigger block but which contains a
`TriggerBeginEndBlock` with a subquery expression beneath it. -/
def egNestedTrigger : Node := .queryProcess (.triggerBlock [egTrigStmt])

/-- What `cacheSubqueryResults` returns on `egNestedTrigger`: the subquery
beneath the nested trigger block is marked cacheable. -/
def egNestedTriggerOut : Node :=
  .queryProcess (.triggerBlock
    [.project [.subquery egTrigQuery true] (.table "t" ["a"])])

/-- An inner plan projecting the outer-only column name `o`. -/
def egInnerOuterCol : Node := .project [.uCol "o"] (.table "t" ["a"])

/-- A subquery alias over `egInnerOuterCol`. -/
def egSAOuterCol : Node := .subqueryAlias "s" [] egInnerOuterCol

/-- `(SELECT a, b FROM t) AS s (x)` — one alias name, two child columns. -/
def egSAMismatch : Node := .subqueryAlias "s" ["x"] (.table "t" ["a", "b"])

/-- `(SELECT a, b FROM t) AS s (x, y)` — matching arities. -/
def egSAMatch : Node := .subqueryAlias "s" ["x", "y"] (.table "t" ["a", "b"])

/-- An analysis that always reports a deferred-class error (unresolved
column) while returning partial progress (a marker node) and `NewTree`. -/
def deferAnalyzer : Analyzer := fun _ _ =>
  ⟨.table "marker" [], false, some .columnNotFound⟩

/-- An analysis that always fails with a non-deferred error. -/
def fatalAnalyzer : Analyzer := fun _ _ =>
  ⟨.table "marker" [], false, some (.other 7)⟩

/-- A catalog holding the aggregation `sum`, the window aggregation
`row_number`, and the scalar `abs`. -/
def egCatalog : Catalog := fun nm =>
  if nm == "sum" then some ⟨.aggregation, false⟩
  else if nm == "row_number" then some ⟨.windowAggregation, false⟩
  else if nm == "abs" then some ⟨.scalar, false⟩
  else none

/-- `SELECT sum(a) OVER w FROM t` — an unresolved aggregate call carrying a
window specification. -/
def egStmtSum : Node :=
  .project [.uFunc "sum" [.getField 0 "a"] (some 3)] (.table "t" ["a"])

/-- The same statement with a scalar call carrying a window specification. -/
def egStmtAbs : Node :=
  .project [.uFunc "abs" [.getField 0 "a"] (some 3)] (.table "t" ["a"])

/-- A statement calling a function absent from `egCatalog`. -/
def egStmtUnknown : Node :=
  .project [.uFunc "nosuch" [] none] (.table "t" ["a"])

/-- A trigger-capable database whose `CreateTrigger` succeeds. -/
def egDbOk : TriggerDb := ⟨"db", true, none⟩

/-- A database without trigger support. -/
def egDbNoTrig : TriggerDb := ⟨"plainDb", false, none⟩

/-- A trigger-capable database whose `CreateTrigger` fails. -/
def egDbErr : TriggerDb := ⟨"db", true, some (.other 3)⟩

/-- `SELECT row_number() OVER w FROM t` — an unresolved window-aggregation
call carrying a window specification. -/
def egStmtRowNum : Node :=
  .project [.uFunc "row_number" [] (some 9)] (.table "t" ["a"])

/-!
## Theorems
-/

/-- Splice helper: a `Same` child rewrite keeps the original. -/
theorem pick_of_true {c : Node} {r : Node × Bool} (h : r.2 = true) :
    pick c r = c := by
  simp [pick, h]

/-- Splice helper: a `NewTree` child rewrite is spliced. -/
theorem pick_of_false {c : Node} {r : Node × Bool} (h : r.2 = false) :
    pick c r = r.1 := by
  simp [pick, h]

/-- Monadic bind on a successful `Except` computation. -/
theorem ok_bind {β γ : Type} (a : β) (g : β → Except AErr γ) :
    (Except.ok a >>= g) = g a := rfl

/-- Monadic bind on a failed `Except` computation. -/
theorem error_bind {β γ : Type} (e : AErr) (g : β → Except AErr γ) :
    ((Except.error e : Except AErr β) >>= g) = .error e := rfl

/-- Change-identity soundness of the single-child traversal step: whatever
the child computation produced, if the combined flag is `Same` the callback
was applied to the rebuilt original and its `Same` contract gives the
result. -/
theorem same_root_aux1 (f : Node → Except AErr (Node × Bool))
    (ec : Except AErr (Node × Bool)) (c : Node) (rebuild : Node → Node)
    (hroot : ∀ x, f (rebuild c) = .ok x → x.2 = true → x.1 = rebuild c) :
    ∀ y, (do
        let rc ← ec
        let r ← f (rebuild (pick c rc))
        pure (r.1, rc.2 && r.2) : Except AErr (Node × Bool)) = .ok y →
      y.2 = true → y.1 = rebuild c := by
  intro y h htrue
  cases hc : ec with
  | error e => rw [hc, error_bind] at h; exact Except.noConfusion h
  | ok rc =>
      rw [hc, ok_bind] at h
      cases hr : f (rebuild (pick c rc)) with
      | error e => rw [hr, error_bind] at h; exact Except.noConfusion h
      | ok r =>
          rw [hr, ok_bind] at h
          have h2 : (Except.ok (r.1, rc.2 && r.2) :
              Except AErr (Node × Bool)) = .ok y := h
          cases h2
          have hb : (rc.2 && r.2) = true := htrue
          simp only [Bool.and_eq_true] at hb
          rw [pick_of_true hb.1] at hr
          exact hroot r hr hb.2

/-- Change-identity soundness of the two-child traversal step. -/
theorem same_root_aux2 (f : Node → Except AErr (Node × Bool))
    (ec1 ec2 : Except AErr (Node × Bool)) (l r : Node)
    (rebuild : Node → Node → Node)
    (hroot : ∀ x, f (rebuild l r) = .ok x → x.2 = true → x.1 = rebuild l r) :
    ∀ y, (do
        let rl ← ec1
        let rr ← ec2
        let res ← f (rebuild (pick l rl) (pick r rr))
        pure (res.1, rl.2 && rr.2 && res.2) :
          Except AErr (Node × Bool)) = .ok y →
      y.2 = true → y.1 = rebuild l r := by
  intro y h htrue
  cases hl : ec1 with
  | error e => rw [hl, error_bind] at h; exact Except.noConfusion h
  | ok rl =>
      rw [hl, ok_bind] at h
      cases hr2 : ec2 with
      | error e => rw [hr2, error_bind] at h; exact Except.noConfusion h
      | ok rr =>
          rw [hr2, ok_bind] at h
          cases hres : f (rebuild (pick l rl) (pick r rr)) with
          | error e => rw [hres, error_bind] at h; exact Except.noConfusion h
          | ok res =>
              rw [hres, ok_bind] at h
              have h2 : (Except.ok (res.1, rl.2 && rr.2 && res.2) :
                  Except AErr (Node × Bool)) = .ok y := h
              cases h2
              have hb : ((rl.2 && rr.2) && res.2) = true := htrue
              simp only [Bool.and_eq_true] at hb
              rw [pick_of_true hb.1.1, pick_of_true hb.1.2] at hres
              exact hroot res hres hb.2

/-- A list of child rewrites that reports `Same` overall keeps the original
list. -/
theorem visitNodesList_same (f : Node → Except AErr (Node × Bool)) :
    ∀ (b : List Node) (rb : List Node × Bool),
      visitNodesList f b = .ok rb → rb.2 = true → rb.1 = b
  | [], rb, h, _ => by
      have h2 : (Except.ok (([] : List Node), true) :
          Except AErr (List Node × Bool)) = .ok rb := h
      cases h2
      rfl
  | n :: ns, rb, h, htrue => by
      simp only [visitNodesList] at h
      cases hn : visitNodes f n with
      | error e => rw [hn, error_bind] at h; exact Except.noConfusion h
      | ok r =>
          rw [hn, ok_bind] at h
          cases hns : visitNodesList f ns with
          | error e => rw [hns, error_bind] at h; exact Except.noConfusion h
          | ok rs =>
              rw [hns, ok_bind] at h
              have h2 : (Except.ok (pick n r :: rs.1, r.2 && rs.2) :
                  Except AErr (List Node × Bool)) = .ok rb := h
              cases h2
              have hb : (r.2 && rs.2) = true := htrue
              simp only [Bool.and_eq_true] at hb
              rw [pick_of_true hb.1, visitNodesList_same f ns rs hns hb.2]

/-- When a bottom-up rewrite returns `Same`, the returned tree is the input
tree, provided the callback only reports `Same` on the root when it returns
the root unchanged (the child-level splice discards `Same` child rewrites,
so only the root application can leak a modification). -/
theorem visitNodes_same_root (f : Node → Except AErr (Node × Bool))
    (n : Node) (hroot : ∀ x, f n = .ok x → x.2 = true → x.1 = n) :
    ∀ y, visitNodes f n = .ok y → y.2 = true → y.1 = n := by
  cases n with
  | table nm cols =>
      intro y h ht
      exact hroot y (by simpa [visitNodes] using h) ht
  | project es c =>
      intro y h ht
      simp only [visitNodes] at h
      exact same_root_aux1 f _ c (fun x => .project es x) hroot y h ht
  | subqueryAlias nm cols c =>
      intro y h ht
      simp only [visitNodes] at h
      exact same_root_aux1 f _ c (fun x => .subqueryAlias nm cols x) hroot y h ht
  | join jt sl l r =>
      intro y h ht
      simp only [visitNodes] at h
      exact same_root_aux2 f _ _ l r (fun x z => .join jt sl x z) hroot y h ht
  | indexedJoin l r =>
      intro y h ht
      simp only [visitNodes] at h
      exact same_root_aux2 f _ _ l r (fun x z => .indexedJoin x z) hroot y h ht
  | cachedResults c =>
      intro y h ht
      simp only [visitNodes] at h
      exact same_root_aux1 f _ c (fun x => .cachedResults x) hroot y h ht
  | stripRowNode c k =>
      intro y h ht
      simp only [visitNodes] at h
      exact same_root_aux1 f _ c (fun x => .stripRowNode x k) hroot y h ht
  | triggerBlock b =>
      intro y h htrue
      simp only [visitNodes] at h
      cases hb : visitNodesList f b with
      | error e => rw [hb, error_bind] at h; exact Except.noConfusion h
      | ok rb =>
          rw [hb, ok_bind] at h
          cases hr : f (.triggerBlock rb.1) with
          | error e => rw [hr, error_bind] at h; exact Except.noConfusion h
          | ok r =>
              rw [hr, ok_bind] at h
              have h2 : (Except.ok (r.1, rb.2 && r.2) :
                  Except AErr (Node × Bool)) = .ok y := h
              cases h2
              have hbool : (rb.2 && r.2) = true := htrue
              simp only [Bool.and_eq_true] at hbool
              rw [visitNodesList_same f b rb hb hbool.1] at hr
              exact hroot r hr hbool.2
  | queryProcess c =>
      intro y h ht
      simp only [visitNodes] at h
      exact same_root_aux1 f _ c (fun x => .queryProcess x) hroot y h ht
  | startTransaction c =>
      intro y h ht
      simp only [visitNodes] at h
      exact same_root_aux1 f _ c (fun x => .startTransaction x) hroot y h ht

/-- The context-aware analogue of `visitNodesList_same`. -/
theorem visitCtxList_same (sel : Option (TCtx → Bool))
    (f : TCtx → Except AErr (Node × Bool)) (parent : Node) :
    ∀ (idx : Nat) (b : List Node) (rb : List Node × Bool),
      visitCtxList sel f parent idx b = .ok rb → rb.2 = true → rb.1 = b
  | _, [], rb, h, _ => by
      have h2 : (Except.ok (([] : List Node), true) :
          Except AErr (List Node × Bool)) = .ok rb := h
      cases h2
      rfl
  | idx, n :: ns, rb, h, htrue => by
      simp only [visitCtxList] at h
      cases hn : (if selOk sel ⟨n, some parent, idx⟩ then
          visitCtx sel f n (some parent) idx else pure (n, true)) with
      | error e => rw [hn, error_bind] at h; exact Except.noConfusion h
      | ok r =>
          rw [hn, ok_bind] at h
          cases hns : visitCtxList sel f parent (idx + 1) ns with
          | error e => rw [hns, error_bind] at h; exact Except.noConfusion h
          | ok rs =>
              rw [hns, ok_bind] at h
              have h2 : (Except.ok (pick n r :: rs.1, r.2 && rs.2) :
                  Except AErr (List Node × Bool)) = .ok rb := h
              cases h2
              have hb : (r.2 && rs.2) = true := htrue
              simp only [Bool.and_eq_true] at hb
              rw [pick_of_true hb.1,
                visitCtxList_same sel f parent (idx + 1) ns rs hns hb.2]

/-- When the context-aware rewrite returns `Same`, the returned tree is the
input tree, provided the callback's `Same` contract holds at the root
context. -/
theorem visitCtx_same_root (sel : Option (TCtx → Bool))
    (f : TCtx → Except AErr (Node × Bool)) (n : Node) (p : Option Node)
    (i : Nat) (hroot : ∀ x, f ⟨n, p, i⟩ = .ok x → x.2 = true → x.1 = n) :
    ∀ y, visitCtx sel f n p i = .ok y → y.2 = true → y.1 = n := by
  cases n with
  | table nm cols =>
      intro y h ht
      exact hroot y (by simpa [visitCtx] using h) ht
  | project es c =>
      intro y h ht
      simp only [visitCtx] at h
      exact same_root_aux1 (fun m => f ⟨m, p, i⟩) _ c
        (fun x => .project es x) hroot y h ht
  | subqueryAlias nm cols c =>
      intro y h ht
      simp only [visitCtx] at h
      exact same_root_aux1 (fun m => f ⟨m, p, i⟩) _ c
        (fun x => .subqueryAlias nm cols x) hroot y h ht
  | join jt sl l r =>
      intro y h ht
      simp only [visitCtx] at h
      exact same_root_aux2 (fun m => f ⟨m, p, i⟩) _ _ l r
        (fun x z => .join jt sl x z) hroot y h ht
  | indexedJoin l r =>
      intro y h ht
      simp only [visitCtx] at h
      exact same_root_aux2 (fun m => f ⟨m, p, i⟩) _ _ l r
        (fun x z => .indexedJoin x z) hroot y h ht
  | cachedResults c =>
      intro y h ht
      simp only [visitCtx] at h
      exact same_root_aux1 (fun m => f ⟨m, p, i⟩) _ c
        (fun x => .cachedResults x) hroot y h ht
  | stripRowNode c k =>
      intro y h ht
      simp only [visitCtx] at h
      exact same_root_aux1 (fun m => f ⟨m, p, i⟩) _ c
        (fun x => .stripRowNode x k) hroot y h ht
  | triggerBlock b =>
      intro y h htrue
      simp only [visitCtx] at h
      cases hb : visitCtxList sel f (Node.triggerBlock b) 0 b with
      | error e => rw [hb, error_bind] at h; exact Except.noConfusion h
      | ok rb =>
          rw [hb, ok_bind] at h
          cases hr : f ⟨.triggerBlock rb.1, p, i⟩ with
          | error e => rw [hr, error_bind] at h; exact Except.noConfusion h
          | ok r =>
              rw [hr, ok_bind] at h
              have h2 : (Except.ok (r.1, rb.2 && r.2) :
                  Except AErr (Node × Bool)) = .ok y := h
              cases h2
              have hbool : (rb.2 && r.2) = true := htrue
              simp only [Bool.and_eq_true] at hbool
              rw [visitCtxList_same sel f (Node.triggerBlock b) 0 b rb hb
                hbool.1] at hr
              exact hroot r hr hbool.2
  | queryProcess c =>
      intro y h ht
      simp only [visitCtx] at h
      exact same_root_aux1 (fun m => f ⟨m, p, i⟩) _ c
        (fun x => .queryProcess x) hroot y h ht
  | startTransaction c =>
      intro y h ht
      simp only [visitCtx] at h
      exact same_root_aux1 (fun m => f ⟨m, p, i⟩) _ c
        (fun x => .startTransaction x) hroot y h ht

mutual
/-- A bottom-up rewrite with a callback that never fails never fails. -/
theorem visitNodes_total (f : Node → Except AErr (Node × Bool))
    (hf : ∀ m, ∃ x, f m = .ok x) :
    ∀ n, ∃ y, visitNodes f n = .ok y
  | .table nm cols => by simpa [visitNodes] using hf (.table nm cols)
  | .project es c => by
      obtain ⟨rc, hrc⟩ := visitNodes_total f hf c
      obtain ⟨r, hr⟩ := hf (.project es (pick c rc))
      exact ⟨(r.1, rc.2 && r.2), by
        simp only [visitNodes]; rw [hrc, ok_bind, hr, ok_bind]; rfl⟩
  | .subqueryAlias nm cols c => by
      obtain ⟨rc, hrc⟩ := visitNodes_total f hf c
      obtain ⟨r, hr⟩ := hf (.subqueryAlias nm cols (pick c rc))
      exact ⟨(r.1, rc.2 && r.2), by
        simp only [visitNodes]; rw [hrc, ok_bind, hr, ok_bind]; rfl⟩
  | .join jt sl l r => by
      obtain ⟨rl, hrl⟩ := visitNodes_total f hf l
      obtain ⟨rr, hrr⟩ := visitNodes_total f hf r
      obtain ⟨res, hres⟩ := hf (.join jt sl (pick l rl) (pick r rr))
      exact ⟨(res.1, rl.2 && rr.2 && res.2), by
        simp only [visitNodes]; rw [hrl, ok_bind, hrr, ok_bind, hres, ok_bind]; rfl⟩
  | .indexedJoin l r => by
      obtain ⟨rl, hrl⟩ := visitNodes_total f hf l
      obtain ⟨rr, hrr⟩ := visitNodes_total f hf r
      obtain ⟨res, hres⟩ := hf (.indexedJoin (pick l rl) (pick r rr))
      exact ⟨(res.1, rl.2 && rr.2 && res.2), by
        simp only [visitNodes]; rw [hrl, ok_bind, hrr, ok_bind, hres, ok_bind]; rfl⟩
  | .cachedResults c => by
      obtain ⟨rc, hrc⟩ := visitNodes_total f hf c
      obtain ⟨r, hr⟩ := hf (.cachedResults (pick c rc))
      exact ⟨(r.1, rc.2 && r.2), by
        simp only [visitNodes]; rw [hrc, ok_bind, hr, ok_bind]; rfl⟩
  | .stripRowNode c k => by
      obtain ⟨rc, hrc⟩ := visitNodes_total f hf c
      obtain ⟨r, hr⟩ := hf (.stripRowNode (pick c rc) k)
      exact ⟨(r.1, rc.2 && r.2), by
        simp only [visitNodes]; rw [hrc, ok_bind, hr, ok_bind]; rfl⟩
  | .triggerBlock b => by
      obtain ⟨rb, hrb⟩ := visitNodesList_total f hf b
      obtain ⟨r, hr⟩ := hf (.triggerBlock rb.1)
      exact ⟨(r.1, rb.2 && r.2), by
        simp only [visitNodes]; rw [hrb, ok_bind, hr, ok_bind]; rfl⟩
  | .queryProcess c => by
      obtain ⟨rc, hrc⟩ := visitNodes_total f hf c
      obtain ⟨r, hr⟩ := hf (.queryProcess (pick c rc))
      exact ⟨(r.1, rc.2 && r.2), by
        simp only [visitNodes]; rw [hrc, ok_bind, hr, ok_bind]; rfl⟩
  | .startTransaction c => by
      obtain ⟨rc, hrc⟩ := visitNodes_total f hf c
      obtain ⟨r, hr⟩ := hf (.startTransaction (pick c rc))
      exact ⟨(r.1, rc.2 && r.2), by
        simp only [visitNodes]; rw [hrc, ok_bind, hr, ok_bind]; rfl⟩

theorem visitNodesList_total (f : Node → Except AErr (Node × Bool))
    (hf : ∀ m, ∃ x, f m = .ok x) :
    ∀ b, ∃ y, visitNodesList f b = .ok y
  | [] => ⟨([], true), rfl⟩
  | n :: ns => by
      obtain ⟨r, hr⟩ := visitNodes_total f hf n
      obtain ⟨rs, hrs⟩ := visitNodesList_total f hf ns
      exact ⟨(pick n r :: rs.1, r.2 && rs.2), by
        simp only [visitNodesList]; rw [hr, ok_bind, hrs, ok_bind]; rfl⟩
end

mutual
/-- The context-aware rewrite with a callback that never fails never
fails. -/
theorem visitCtx_total (sel : Option (TCtx → Bool))
    (f : TCtx → Except AErr (Node × Bool))
    (hf : ∀ c, ∃ x, f c = .ok x) :
    ∀ n p i, ∃ y, visitCtx sel f n p i = .ok y
  | .table nm cols, p, i => by simpa [visitCtx] using hf ⟨.table nm cols, p, i⟩
  | .project es c, p, i => by
      obtain ⟨rc, hrc⟩ := visitCtxIf_total sel f hf c
        (some (.project es c)) 0
      obtain ⟨r, hr⟩ := hf ⟨.project es (pick c rc), p, i⟩
      exact ⟨(r.1, rc.2 && r.2), by
        simp only [visitCtx]; rw [hrc, ok_bind, hr, ok_bind]; rfl⟩
  | .subqueryAlias nm cols c, p, i => by
      obtain ⟨rc, hrc⟩ := visitCtxIf_total sel f hf c
        (some (.subqueryAlias nm cols c)) 0
      obtain ⟨r, hr⟩ := hf ⟨.subqueryAlias nm cols (pick c rc), p, i⟩
      exact ⟨(r.1, rc.2 && r.2), by
        simp only [visitCtx]; rw [hrc, ok_bind, hr, ok_bind]; rfl⟩
  | .join jt sl l r, p, i => by
      obtain ⟨rl, hrl⟩ := visitCtxIf_total sel f hf l (some (.join jt sl l r)) 0
      obtain ⟨rr, hrr⟩ := visitCtxIf_total sel f hf r (some (.join jt sl l r)) 1
      obtain ⟨res, hres⟩ := hf ⟨.join jt sl (pick l rl) (pick r rr), p, i⟩
      exact ⟨(res.1, rl.2 && rr.2 && res.2), by
        simp only [visitCtx]; rw [hrl, ok_bind, hrr, ok_bind, hres, ok_bind]; rfl⟩
  | .indexedJoin l r, p, i => by
      obtain ⟨rl, hrl⟩ := visitCtxIf_total sel f hf l (some (.indexedJoin l r)) 0
      obtain ⟨rr, hrr⟩ := visitCtxIf_total sel f hf r (some (.indexedJoin l r)) 1
      obtain ⟨res, hres⟩ := hf ⟨.indexedJoin (pick l rl) (pick r rr), p, i⟩
      exact ⟨(res.1, rl.2 && rr.2 && res.2), by
        simp only [visitCtx]; rw [hrl, ok_bind, hrr, ok_bind, hres, ok_bind]; rfl⟩
  | .cachedResults c, p, i => by
      obtain ⟨rc, hrc⟩ := visitCtxIf_total sel f hf c (some (.cachedResults c)) 0
      obtain ⟨r, hr⟩ := hf ⟨.cachedResults (pick c rc), p, i⟩
      exact ⟨(r.1, rc.2 && r.2), by
        simp only [visitCtx]; rw [hrc, ok_bind, hr, ok_bind]; rfl⟩
  | .stripRowNode c k, p, i => by
      obtain ⟨rc, hrc⟩ := visitCtxIf_total sel f hf c
        (some (.stripRowNode c k)) 0
      obtain ⟨r, hr⟩ := hf ⟨.stripRowNode (pick c rc) k, p, i⟩
      exact ⟨(r.1, rc.2 && r.2), by
        simp only [visitCtx]; rw [hrc, ok_bind, hr, ok_bind]; rfl⟩
  | .triggerBlock b, p, i => by
      obtain ⟨rb, hrb⟩ := visitCtxList_total sel f hf (.triggerBlock b) 0 b
      obtain ⟨r, hr⟩ := hf ⟨.triggerBlock rb.1, p, i⟩
      exact ⟨(r.1, rb.2 && r.2), by
        simp only [visitCtx]; rw [hrb, ok_bind, hr, ok_bind]; rfl⟩
  | .queryProcess c, p, i => by
      obtain ⟨rc, hrc⟩ := visitCtxIf_total sel f hf c (some (.queryProcess c)) 0
      obtain ⟨r, hr⟩ := hf ⟨.queryProcess (pick c rc), p, i⟩
      exact ⟨(r.1, rc.2 && r.2), by
        simp only [visitCtx]; rw [hrc, ok_bind, hr, ok_bind]; rfl⟩
  | .startTransaction c, p, i => by
      obtain ⟨rc, hrc⟩ := visitCtxIf_total sel f hf c
        (some (.startTransaction c)) 0
      obtain ⟨r, hr⟩ := hf ⟨.startTransaction (pick c rc), p, i⟩
      exact ⟨(r.1, rc.2 && r.2), by
        simp only [visitCtx]; rw [hrc, ok_bind, hr, ok_bind]; rfl⟩

theorem visitCtxIf_total (sel : Option (TCtx → Bool))
    (f : TCtx → Except AErr (Node × Bool))
    (hf : ∀ c, ∃ x, f c = .ok x) :
    ∀ (c : Node) (p : Option Node) (i : Nat),
      ∃ y, (if selOk sel ⟨c, p, i⟩ then visitCtx sel f c p i
            else pure (c, true)) = .ok y
  | c, p, i => by
      by_cases hs : selOk sel ⟨c, p, i⟩ = true
      · obtain ⟨y, hy⟩ := visitCtx_total sel f hf c p i
        exact ⟨y, by rw [if_pos hs]; exact hy⟩
      · exact ⟨(c, true), by rw [if_neg hs]; rfl⟩

theorem visitCtxList_total (sel : Option (TCtx → Bool))
    (f : TCtx → Except AErr (Node × Bool))
    (hf : ∀ c, ∃ x, f c = .ok x) :
    ∀ (parent : Node) (idx : Nat) (b : List Node),
      ∃ y, visitCtxList sel f parent idx b = .ok y
  | _, _, [] => ⟨([], true), rfl⟩
  | parent, idx, n :: ns => by
      obtain ⟨r, hr⟩ := visitCtxIf_total sel f hf n (some parent) idx
      obtain ⟨rs, hrs⟩ := visitCtxList_total sel f hf parent (idx + 1) ns
      exact ⟨(pick n r :: rs.1, r.2 && rs.2), by
        simp only [visitCtxList]; rw [hr, ok_bind, hrs, ok_bind]; rfl⟩
end

mutual
/-- The expression-level bottom-up transform with a callback that never
fails never fails. -/
theorem exprTransformUp_total (g : Node → Expr → Except AErr (Expr × Bool))
    (hg : ∀ o e, ∃ x, g o e = .ok x) :
    ∀ (owner : Node) (e : Expr), ∃ y, exprTransformUp g owner e = .ok y
  | owner, .literal v => by simpa [exprTransformUp] using hg owner (.literal v)
  | owner, .getField i nm => by
      simpa [exprTransformUp] using hg owner (.getField i nm)
  | owner, .uCol nm => by simpa [exprTransformUp] using hg owner (.uCol nm)
  | owner, .uFunc nm args w => by
      obtain ⟨ra, hra⟩ := exprsTransformUp_total g hg owner args
      obtain ⟨r, hr⟩ := hg owner (.uFunc nm ra.1 w)
      exact ⟨(r.1, ra.2 && r.2), by
        simp only [exprTransformUp]; rw [hra, ok_bind, hr, ok_bind]; rfl⟩
  | owner, .funcE nm args w k d => by
      obtain ⟨ra, hra⟩ := exprsTransformUp_total g hg owner args
      obtain ⟨r, hr⟩ := hg owner (.funcE nm ra.1 w k d)
      exact ⟨(r.1, ra.2 && r.2), by
        simp only [exprTransformUp]; rw [hra, ok_bind, hr, ok_bind]; rfl⟩
  | owner, .subquery q c => by
      simpa [exprTransformUp] using hg owner (.subquery q c)

theorem exprsTransformUp_total (g : Node → Expr → Except AErr (Expr × Bool))
    (hg : ∀ o e, ∃ x, g o e = .ok x) :
    ∀ (owner : Node) (es : List Expr),
      ∃ y, exprsTransformUp g owner es = .ok y
  | _, [] => ⟨([], true), rfl⟩
  | owner, e :: es => by
      obtain ⟨r, hr⟩ := exprTransformUp_total g hg owner e
      obtain ⟨rs, hrs⟩ := exprsTransformUp_total g hg owner es
      exact ⟨(pickE e r :: rs.1, r.2 && rs.2), by
        simp only [exprsTransformUp]; rw [hr, ok_bind, hrs, ok_bind]; rfl⟩
end

mutual
/-- The node-tree expression rewrite with a callback that never fails never
fails. -/
theorem visitNodesExprs_total (g : Node → Expr → Except AErr (Expr × Bool))
    (hg : ∀ o e, ∃ x, g o e = .ok x) :
    ∀ n, ∃ y, visitNodesExprs g n = .ok y
  | .table nm cols => ⟨(.table nm cols, true), rfl⟩
  | .project es c => by
      obtain ⟨rc, hrc⟩ := visitNodesExprs_total g hg c
      obtain ⟨re, hre⟩ := exprsTransformUp_total g hg
        (.project es (pick c rc)) es
      exact ⟨(.project re.1 (pick c rc), rc.2 && re.2), by
        simp only [visitNodesExprs]; rw [hrc, ok_bind, hre, ok_bind]; rfl⟩
  | .subqueryAlias nm cols c => by
      obtain ⟨rc, hrc⟩ := visitNodesExprs_total g hg c
      exact ⟨(.subqueryAlias nm cols (pick c rc), rc.2), by
        simp only [visitNodesExprs]; rw [hrc, ok_bind]; rfl⟩
  | .join jt sl l r => by
      obtain ⟨rl, hrl⟩ := visitNodesExprs_total g hg l
      obtain ⟨rr, hrr⟩ := visitNodesExprs_total g hg r
      exact ⟨(.join jt sl (pick l rl) (pick r rr), rl.2 && rr.2), by
        simp only [visitNodesExprs]; rw [hrl, ok_bind, hrr, ok_bind]; rfl⟩
  | .indexedJoin l r => by
      obtain ⟨rl, hrl⟩ := visitNodesExprs_total g hg l
      obtain ⟨rr, hrr⟩ := visitNodesExprs_total g hg r
      exact ⟨(.indexedJoin (pick l rl) (pick r rr), rl.2 && rr.2), by
        simp only [visitNodesExprs]; rw [hrl, ok_bind, hrr, ok_bind]; rfl⟩
  | .cachedResults c => by
      obtain ⟨rc, hrc⟩ := visitNodesExprs_total g hg c
      exact ⟨(.cachedResults (pick c rc), rc.2), by
        simp only [visitNodesExprs]; rw [hrc, ok_bind]; rfl⟩
  | .stripRowNode c k => by
      obtain ⟨rc, hrc⟩ := visitNodesExprs_total g hg c
      exact ⟨(.stripRowNode (pick c rc) k, rc.2), by
        simp only [visitNodesExprs]; rw [hrc, ok_bind]; rfl⟩
  | .triggerBlock b => by
      obtain ⟨rb, hrb⟩ := visitNodesExprsList_total g hg b
      exact ⟨(.triggerBlock rb.1, rb.2), by
        simp only [visitNodesExprs]; rw [hrb, ok_bind]; rfl⟩
  | .queryProcess c => by
      obtain ⟨rc, hrc⟩ := visitNodesExprs_total g hg c
      exact ⟨(.queryProcess (pick c rc), rc.2), by
        simp only [visitNodesExprs]; rw [hrc, ok_bind]; rfl⟩
  | .startTransaction c => by
      obtain ⟨rc, hrc⟩ := visitNodesExprs_total g hg c
      exact ⟨(.startTransaction (pick c rc), rc.2), by
        simp only [visitNodesExprs]; rw [hrc, ok_bind]; rfl⟩

theorem visitNodesExprsList_total
    (g : Node → Expr → Except AErr (Expr × Bool))
    (hg : ∀ o e, ∃ x, g o e = .ok x) :
    ∀ b, ∃ y, visitNodesExprsList g b = .ok y
  | [] => ⟨([], true), rfl⟩
  | n :: ns => by
      obtain ⟨r, hr⟩ := visitNodesExprs_total g hg n
      obtain ⟨rs, hrs⟩ := visitNodesExprsList_total g hg ns
      exact ⟨(pick n r :: rs.1, r.2 && rs.2), by
        simp only [visitNodesExprsList]; rw [hr, ok_bind, hrs, ok_bind]; rfl⟩
end

/-- The `Same` contract of `joinScopeLenStep` holds at any node whose
pre-wrapped joins are already annotated with the scope width. -/
theorem joinScopeLenStep_root (len : Nat) (m : Node)
    (hann : joinsAnnotated len m = true) :
    ∀ x, joinScopeLenStep len m = .ok x → x.2 = true → x.1 = m := by
  cases m with
  | join jt sl l r =>
      intro x h ht
      cases l with
      | stripRowNode c k =>
          simp only [joinsAnnotated, isStripNode, if_true, Bool.and_eq_true,
            beq_iff_eq] at hann
          have h2 : (Except.ok (Node.join jt len (.stripRowNode c k) r, true) :
              Except AErr (Node × Bool)) = .ok x := h
          cases h2
          rw [hann.1.1]
      | table nm cols =>
          have h2 : (Except.ok (Node.join jt len
              (.stripRowNode (.table nm cols) len)
              (.stripRowNode r len), false) :
              Except AErr (Node × Bool)) = .ok x := h
          cases h2
          exact absurd ht (by simp)
      | project es c =>
          have h2 : (Except.ok (Node.join jt len
              (.stripRowNode (.project es c) len)
              (.stripRowNode r len), false) :
              Except AErr (Node × Bool)) = .ok x := h
          cases h2
          exact absurd ht (by simp)
      | subqueryAlias nm cols c =>
          have h2 : (Except.ok (Node.join jt len
              (.stripRowNode (.subqueryAlias nm cols c) len)
              (.stripRowNode r len), false) :
              Except AErr (Node × Bool)) = .ok x := h
          cases h2
          exact absurd ht (by simp)
      | join jt2 sl2 l2 r2 =>
          have h2 : (Except.ok (Node.join jt len
              (.stripRowNode (.join jt2 sl2 l2 r2) len)
              (.stripRowNode r len), false) :
              Except AErr (Node × Bool)) = .ok x := h
          cases h2
          exact absurd ht (by simp)
      | indexedJoin l2 r2 =>
          have h2 : (Except.ok (Node.join jt len
              (.stripRowNode (.indexedJoin l2 r2) len)
              (.stripRowNode r len), false) :
              Except AErr (Node × Bool)) = .ok x := h
          cases h2
          exact absurd ht (by simp)
      | cachedResults c =>
          have h2 : (Except.ok (Node.join jt len
              (.stripRowNode (.cachedResults c) len)
              (.stripRowNode r len), false) :
              Except AErr (Node × Bool)) = .ok x := h
          cases h2
          exact absurd ht (by simp)
      | triggerBlock b =>
          have h2 : (Except.ok (Node.join jt len
              (.stripRowNode (.triggerBlock b) len)
              (.stripRowNode r len), false) :
              Except AErr (Node × Bool)) = .ok x := h
          cases h2
          exact absurd ht (by simp)
      | queryProcess c =>
          have h2 : (Except.ok (Node.join jt len
              (.stripRowNode (.queryProcess c) len)
              (.stripRowNode r len), false) :
              Except AErr (Node × Bool)) = .ok x := h
          cases h2
          exact absurd ht (by simp)
      | startTransaction c =>
          have h2 : (Except.ok (Node.join jt len
              (.stripRowNode (.startTransaction c) len)
              (.stripRowNode r len), false) :
              Except AErr (Node × Bool)) = .ok x := h
          cases h2
          exact absurd ht (by simp)
  | table nm cols =>
      intro x h _
      have h2 : (Except.ok (Node.table nm cols, true) :
          Except AErr (Node × Bool)) = .ok x := h
      cases h2; rfl
  | project es c =>
      intro x h _
      have h2 : (Except.ok (Node.project es c, true) :
          Except AErr (Node × Bool)) = .ok x := h
      cases h2; rfl
  | subqueryAlias nm cols c =>
      intro x h _
      have h2 : (Except.ok (Node.subqueryAlias nm cols c, true) :
          Except AErr (Node × Bool)) = .ok x := h
      cases h2; rfl
  | indexedJoin l r =>
      intro x h _
      have h2 : (Except.ok (Node.indexedJoin l r, true) :
          Except AErr (Node × Bool)) = .ok x := h
      cases h2; rfl
  | cachedResults c =>
      intro x h _
      have h2 : (Except.ok (Node.cachedResults c, true) :
          Except AErr (Node × Bool)) = .ok x := h
      cases h2; rfl
  | stripRowNode c k =>
      intro x h _
      have h2 : (Except.ok (Node.stripRowNode c k, true) :
          Except AErr (Node × Bool)) = .ok x := h
      cases h2; rfl
  | triggerBlock b =>
      intro x h _
      have h2 : (Except.ok (Node.triggerBlock b, true) :
          Except AErr (Node × Bool)) = .ok x := h
      cases h2; rfl
  | queryProcess c =>
      intro x h _
      have h2 : (Except.ok (Node.queryProcess c, true) :
          Except AErr (Node × Bool)) = .ok x := h
      cases h2; rfl
  | startTransaction c =>
      intro x h _
      have h2 : (Except.ok (Node.startTransaction c, true) :
          Except AErr (Node × Bool)) = .ok x := h
      cases h2; rfl

/-- C1 (counterexample): `setJoinScopeLen`, run under a two-column outer
scope on a join whose left child is already a `StripRowNode` but whose
scope-length annotation is stale, returns a tree that differs from its input
(the annotation is refreshed from 0 to 2) while reporting the change
identity `Same` — contradicting the claim that a rule returning `Same`
always returns a tree identical to its input. -/
theorem setJoinScopeLen_same_with_changed_tree :
    setJoinScopeLen egScope2 egStaleJoin = .ok (egStaleJoinOut, true) ∧
    egStaleJoinOut ≠ egStaleJoin := by
  constructor
  · rfl
  · simp [egStaleJoin, egStaleJoinOut]

/-- C1 (amended): `resolveSubqueryExpressions` satisfies the change-identity
invariant unconditionally — whenever it returns `Same` the returned tree is
the input tree. `setJoinScopeLen` satisfies it on every tree in which each
join whose left child is already a `StripRowNode` adapter is already
annotated with the outer scope's width (in particular on every tree the rule
itself produced); on other trees it can refresh a root join's stale
annotation while reporting `Same`. -/
theorem rule_same_identity_contract :
    (∀ f scope n y, resolveSubqueryExpressions f scope n = .ok y →
      y.2 = true → y.1 = n) ∧
    (∀ (scope : Scope) (n : Node) y,
      joinsAnnotated scope.schema.length n = true →
      setJoinScopeLen scope n = .ok y → y.2 = true → y.1 = n) := by
  constructor
  · intro f scope n y h htrue
    simp only [resolveSubqueryExpressions] at h
    cases hv : visitNodesExprs (subqueryExprStep f scope) n with
    | error e => rw [hv, error_bind] at h; exact Except.noConfusion h
    | ok r =>
        rw [hv, ok_bind] at h
        by_cases he : nodesEqual r.1 n = true
        · rw [if_pos he] at h
          have h2 : (Except.ok (n, true) :
              Except AErr (Node × Bool)) = .ok y := h
          cases h2; rfl
        · rw [if_neg he] at h
          have h2 : (Except.ok (r.1, false) :
              Except AErr (Node × Bool)) = .ok y := h
          cases h2
          exact absurd htrue (by simp)
  · intro scope n y hann h htrue
    simp only [setJoinScopeLen] at h
    by_cases hz : scope.schema.length = 0
    · rw [if_pos hz] at h
      have h2 : (Except.ok (n, true) : Except AErr (Node × Bool)) = .ok y := h
      cases h2; rfl
    · rw [if_neg hz] at h
      exact visitNodes_same_root (joinScopeLenStep scope.schema.length) n
        (joinScopeLenStep_root scope.schema.length n hann) y h htrue

/-- C1 (witness): the amended invariant applied at concrete inputs — the
subquery-expression rule at a plain table, and the join rule at a correctly
annotated pre-wrapped join under a width-2 scope. -/
theorem rule_same_identity_contract_witness :
    (resolveSubqueryExpressions idAnalyzer [] (Node.table "t" []) =
        .ok (Node.table "t" [], true) ∧
      ((Node.table "t" [] : Node), true).1 = Node.table "t" []) ∧
    (joinsAnnotated (Scope.schema egScope2).length egAnnotatedJoin = true ∧
      setJoinScopeLen egScope2 egAnnotatedJoin = .ok (egAnnotatedJoin, true) ∧
      (egAnnotatedJoin, true).1 = egAnnotatedJoin) := by
  have h1 : resolveSubqueryExpressions idAnalyzer [] (Node.table "t" []) =
      .ok (Node.table "t" [], true) := by
    have hv : visitNodesExprs (subqueryExprStep idAnalyzer [])
        (Node.table "t" []) = .ok (Node.table "t" [], true) := rfl
    have he : nodesEqual (Node.table "t" []) (Node.table "t" []) = true := by
      simp [nodesEqual, Node.eqb]
    simp only [resolveSubqueryExpressions]
    rw [hv, ok_bind, if_pos he]; rfl
  exact ⟨⟨h1, rule_same_identity_contract.1 idAnalyzer [] (Node.table "t" [])
      (Node.table "t" [], true) h1 rfl⟩,
    ⟨rfl, rfl, rule_same_identity_contract.2 egScope2 egAnnotatedJoin
      (egAnnotatedJoin, true) rfl rfl rfl⟩⟩

/-- C4: subquery aliases are scope-opaque. Both `resolveSubqueries` and
`finalizeSubqueries` ignore their own scope argument entirely, and the
analysis they invoke on each alias's child receives the empty scope — the
rules are unchanged if the analysis function is forced onto the empty scope.
Consequently (with the spec-modelled column-resolving analysis), an inner
plan that references only an outer-query column resolves fine against the
enclosing scope but fails with the deferred-class `columnNotFound` when
analyzed through the alias — the outer column is not visible there. -/
theorem subqueryAlias_scope_opacity :
    (∀ f s s2 n, resolveSubqueries f s n = resolveSubqueries f s2 n) ∧
    (∀ f s n, resolveSubqueries f s n =
      resolveSubqueries (fun q _ => f q []) s n) ∧
    (∀ f s s2 n, finalizeSubqueries f s n = finalizeSubqueries f s2 n) ∧
    (∀ f s n, finalizeSubqueries f s n =
      finalizeSubqueries (fun q _ => f q []) s n) ∧
    (analyzeColumnsModel egInnerOuterCol egOuterScope).err = none ∧
    (analyzeColumnsModel egInnerOuterCol egOuterScope).node =
      .project [.getField 0 "o"] (.table "t" ["a"]) ∧
    (analyzeColumnsModel egInnerOuterCol []).err = some .columnNotFound ∧
    resolveSubqueries analyzeColumnsModel egOuterScope egSAOuterCol =
      .error .columnNotFound ∧
    finalizeSubqueries analyzeColumnsModel egOuterScope egSAOuterCol =
      .error .columnNotFound :=
  ⟨fun _ _ _ _ => rfl, fun _ _ _ => rfl, fun _ _ _ _ => rfl,
    fun _ _ _ => rfl, rfl, rfl, rfl, rfl, rfl⟩

/-- C9 (counterexample): `cacheSubqueryResults` does walk into a trigger
begin/end block that is nested below the root (the guard checks only the
root node): on a tree whose root is a passthrough wrapper over a trigger
block, the subquery expression inside the trigger body is marked cacheable,
contradicting the claim that every subquery beneath a trigger block is left
unmarked. -/
theorem cacheSubqueryResults_nested_trigger_counterexample :
    cacheSubqueryResults [] egNestedTrigger = .ok (egNestedTriggerOut, false) ∧
    egNestedTriggerOut ≠ egNestedTrigger := by
  constructor
  · rfl
  · simp [egNestedTrigger, egNestedTriggerOut, egTrigStmt, egTrigQuery]

/-- C9 (amended): the trigger exemption is a root-only guard — when the tree
handed to `cacheSubqueryResults` is itself a `TriggerBeginEndBlock` (as is
the case when the analyzer recursively invokes the rule on a trigger body),
the rule returns it unchanged with `Same` and marks nothing beneath it;
trigger blocks nested strictly inside a larger tree are walked into like any
other node. -/
theorem cacheSubqueryResults_trigger_root_guard :
    ∀ (scope : Scope) (b : List Node),
      cacheSubqueryResults scope (.triggerBlock b) =
        .ok (.triggerBlock b, true) :=
  fun _ _ => rfl

/-- After the first call, `createTriggerIterNext` leaves the state
untouched, so iterating it any number of times from a spent state is the
identity. -/
theorem iterTriggerN_stable (db : TriggerDb) :
    ∀ (k : Nat) (s : CreateTriggerIterState), s.ran = true →
      iterTriggerN db k s = s
  | 0, _, _ => rfl
  | k + 1, s, h => by
      simp only [iterTriggerN, createTriggerIterNext, h, if_true]
      exact iterTriggerN_stable db k s h

/-- C10: the first call to `createTriggerIter.Next` returns exactly one of:
an OK row (capable database, successful `CreateTrigger`),
`TriggersNotSupported` (incapable database), or the propagated
`CreateTrigger` error; every later call returns `io.EOF` with the state
unchanged; and over any number of calls the database's `CreateTrigger` is
invoked at most once. -/
theorem createTriggerIter_next_correct :
    (∀ (db : TriggerDb) (s : CreateTriggerIterState), s.ran = true →
      createTriggerIterNext db s = (.eof, s)) ∧
    (∀ db : TriggerDb, db.supportsTriggers = false →
      createTriggerIterNext db freshTriggerIter =
        (.errTriggersNotSupported db.name, ⟨true, 0⟩)) ∧
    (∀ (db : TriggerDb) (e : AErr), db.supportsTriggers = true →
      db.createTriggerErr = some e →
      createTriggerIterNext db freshTriggerIter = (.err e, ⟨true, 1⟩)) ∧
    (∀ db : TriggerDb, db.supportsTriggers = true →
      db.createTriggerErr = none →
      createTriggerIterNext db freshTriggerIter = (.okRow, ⟨true, 1⟩)) ∧
    (∀ (db : TriggerDb) (k : Nat),
      (iterTriggerN db k freshTriggerIter).createCalls ≤ 1) := by
  refine ⟨?_, ?_, ?_, ?_, ?_⟩
  · intro db s h
    simp [createTriggerIterNext, h]
  · intro db h
    simp [createTriggerIterNext, freshTriggerIter, h]
  · intro db e h1 h2
    simp [createTriggerIterNext, freshTriggerIter, h1, h2]
  · intro db h1 h2
    simp [createTriggerIterNext, freshTriggerIter, h1, h2]
  · intro db k
    cases k with
    | zero => exact Nat.zero_le 1
    | succ k =>
        have hstep : ((createTriggerIterNext db freshTriggerIter).2.ran =
            true) ∧ (createTriggerIterNext db freshTriggerIter).2.createCalls
              ≤ 1 := by
          cases hb : db.supportsTriggers with
          | false => simp [createTriggerIterNext, freshTriggerIter, hb]
          | true =>
              cases he : db.createTriggerErr with
              | none => simp [createTriggerIterNext, freshTriggerIter, hb, he]
              | some e => simp [createTriggerIterNext, freshTriggerIter, hb, he]
        show (iterTriggerN db k (createTriggerIterNext db freshTriggerIter).2).createCalls ≤ 1
        rw [iterTriggerN_stable db k _ hstep.1]
        exact hstep.2

/-- C10 (witness): the case analysis of the first call, and the at-most-once
bound, at the three concrete databases. -/
theorem createTriggerIter_next_correct_witness :
    ((⟨true, 0⟩ : CreateTriggerIterState).ran = true ∧
      createTriggerIterNext egDbOk ⟨true, 0⟩ = (.eof, ⟨true, 0⟩)) ∧
    (egDbNoTrig.supportsTriggers = false ∧
      createTriggerIterNext egDbNoTrig freshTriggerIter =
        (.errTriggersNotSupported "plainDb", ⟨true, 0⟩)) ∧
    (egDbErr.supportsTriggers = true ∧
      egDbErr.createTriggerErr = some (.other 3) ∧
      createTriggerIterNext egDbErr freshTriggerIter =
        (.err (.other 3), ⟨true, 1⟩)) ∧
    (egDbOk.supportsTriggers = true ∧ egDbOk.createTriggerErr = none ∧
      createTriggerIterNext egDbOk freshTriggerIter = (.okRow, ⟨true, 1⟩)) ∧
    (iterTriggerN egDbOk 5 freshTriggerIter).createCalls ≤ 1 :=
  ⟨⟨rfl, createTriggerIter_next_correct.1 egDbOk ⟨true, 0⟩ rfl⟩,
    ⟨rfl, createTriggerIter_next_correct.2.1 egDbNoTrig rfl⟩,
    ⟨rfl, rfl, createTriggerIter_next_correct.2.2.1 egDbErr (.other 3) rfl rfl⟩,
    ⟨rfl, rfl, createTriggerIter_next_correct.2.2.2.1 egDbOk rfl rfl⟩,
    createTriggerIter_next_correct.2.2.2.2 egDbOk 5⟩

/-- Inversion of a two-step `Except` do-block ending in `pure`. -/
theorem do2_ok {α β γ : Type} {ea : Except AErr α} {g : α → Except AErr β}
    {p : α → β → γ} {y : γ}
    (h : (do
      let a ← ea
      let b ← g a
      pure (p a b) : Except AErr γ) = .ok y) :
    ∃ a b, ea = .ok a ∧ g a = .ok b ∧ p a b = y := by
  cases ha : ea with
  | error e => rw [ha, error_bind] at h; exact Except.noConfusion h
  | ok a =>
      rw [ha, ok_bind] at h
      cases hb : g a with
      | error e => rw [hb, error_bind] at h; exact Except.noConfusion h
      | ok b =>
          rw [hb, ok_bind] at h
          have h2 : (Except.ok (p a b) : Except AErr γ) = .ok y := h
          cases h2
          exact ⟨a, b, rfl, hb, rfl⟩

/-- Inversion of a three-step `Except` do-block ending in `pure`, whose
second step does not depend on the first. -/
theorem do3_ok {α β γ δ : Type} {ea : Except AErr α} {eb : Except AErr β}
    {g : α → β → Except AErr γ} {p : α → β → γ → δ} {y : δ}
    (h : (do
      let a ← ea
      let b ← eb
      let c ← g a b
      pure (p a b c) : Except AErr δ) = .ok y) :
    ∃ a b c, ea = .ok a ∧ eb = .ok b ∧ g a b = .ok c ∧ p a b c = y := by
  cases ha : ea with
  | error e => rw [ha, error_bind] at h; exact Except.noConfusion h
  | ok a =>
      rw [ha, ok_bind] at h
      cases hb : eb with
      | error e => rw [hb, error_bind] at h; exact Except.noConfusion h
      | ok b =>
          rw [hb, ok_bind] at h
          cases hc : g a b with
          | error e => rw [hc, error_bind] at h; exact Except.noConfusion h
          | ok c =>
              rw [hc, ok_bind] at h
              have h2 : (Except.ok (p a b c) : Except AErr δ) = .ok y := h
              cases h2
              exact ⟨a, b, c, rfl, rfl, hc, rfl⟩

/-- Inversion of a one-step `Except` do-block ending in `pure`. -/
theorem do1_ok {α γ : Type} {ea : Except AErr α} {p : α → γ} {y : γ}
    (h : (do
      let a ← ea
      pure (p a) : Except AErr γ) = .ok y) :
    ∃ a, ea = .ok a ∧ p a = y := by
  cases ha : ea with
  | error e => rw [ha, error_bind] at h; exact Except.noConfusion h
  | ok a =>
      rw [ha, ok_bind] at h
      have h2 : (Except.ok (p a) : Except AErr γ) = .ok y := h
      cases h2
      exact ⟨a, rfl, rfl⟩

/-- Inversion of a two-step independent `Except` do-block ending in
`pure`. -/
theorem doPair_ok {α β γ : Type} {ea : Except AErr α} {eb : Except AErr β}
    {p : α → β → γ} {y : γ}
    (h : (do
      let a ← ea
      let b ← eb
      pure (p a b) : Except AErr γ) = .ok y) :
    ∃ a b, ea = .ok a ∧ eb = .ok b ∧ p a b = y := by
  cases ha : ea with
  | error e => rw [ha, error_bind] at h; exact Except.noConfusion h
  | ok a =>
      rw [ha, ok_bind] at h
      cases hb : eb with
      | error e => rw [hb, error_bind] at h; exact Except.noConfusion h
      | ok b =>
          rw [hb, ok_bind] at h
          have h2 : (Except.ok (p a b) : Except AErr γ) = .ok y := h
          cases h2
          exact ⟨a, b, rfl, rfl, rfl⟩

/-- If a child rewrite's `Same` flag guarantees it returned the original,
the splice is the rewrite's node in either case. -/
theorem pick_eq_of_same_imp {c : Node} {rc : Node × Bool}
    (h : rc.2 = true → rc.1 = c) : pick c rc = rc.1 := by
  cases hb : rc.2 with
  | true => rw [pick_of_true hb, h hb]
  | false => exact pick_of_false hb

/-- `subqueryExprStep` never fails when the supplied analysis only reports
deferred-class errors. -/
theorem subqueryExprStep_total (f : Analyzer) (scope : Scope)
    (hf : ∀ q sc e, (f q sc).err = some e → e.isDeferred = true) :
    ∀ owner e, ∃ x, subqueryExprStep f scope owner e = .ok x := by
  intro owner e
  cases e with
  | subquery q cached =>
      simp only [subqueryExprStep]
      cases ha : (f q (scope.newScope owner)).err with
      | none =>
          by_cases hs : (f q (scope.newScope owner)).same = true
          · exact ⟨(.subquery q cached, true), by simp [hs, pure, Except.pure]⟩
          · exact ⟨(.subquery
              (StripPassthroughNodes (f q (scope.newScope owner)).node)
              cached, false), by simp [hs, pure, Except.pure]⟩
      | some err =>
          have hd := hf q (scope.newScope owner) err ha
          exact ⟨(.subquery (f q (scope.newScope owner)).node cached,
            (f q (scope.newScope owner)).same), by
              simp [hd, pure, Except.pure]⟩
  | literal v => exact ⟨(.literal v, true), rfl⟩
  | getField i nm => exact ⟨(.getField i nm, true), rfl⟩
  | uCol nm => exact ⟨(.uCol nm, true), rfl⟩
  | uFunc nm args w => exact ⟨(.uFunc nm args w, true), rfl⟩
  | funcE nm args w k d => exact ⟨(.funcE nm args w k d, true), rfl⟩

/-- C5: in `resolveSubqueryExpressions`, a deferred-class analysis error
(unresolved column, unresolved table-column, validation-not-resolved) is
swallowed — the rule succeeds, keeping the partially analyzed inner query —
while any other analysis error aborts the rule with that error. -/
theorem subqueryExpr_deferred_errors :
    (∀ (f : Analyzer) (scope : Scope) (n : Node),
      (∀ q sc e, (f q sc).err = some e → e.isDeferred = true) →
      ∃ y, resolveSubqueryExpressions f scope n = .ok y) ∧
    (resolveSubqueryExpressions deferAnalyzer [] egStmtHi =
      .ok (.project [.subquery (.table "marker" []) false]
        (.table "w" []), false)) ∧
    (resolveSubqueryExpressions fatalAnalyzer [] egStmtHi =
      .error (.other 7)) := by
  refine ⟨?_, ?_, ?_⟩
  · intro f scope n hf
    obtain ⟨r, hr⟩ := visitNodesExprs_total (subqueryExprStep f scope)
      (subqueryExprStep_total f scope hf) n
    simp only [resolveSubqueryExpressions]
    by_cases he : nodesEqual r.1 n = true
    · exact ⟨(n, true), by rw [hr, ok_bind, if_pos he]; rfl⟩
    · exact ⟨(r.1, false), by rw [hr, ok_bind, if_neg he]; rfl⟩
  · have hv : visitNodesExprs (subqueryExprStep deferAnalyzer []) egStmtHi =
        .ok (.project [.subquery (.table "marker" []) false]
          (.table "w" []), false) := rfl
    have he : nodesEqual (Node.project [.subquery (.table "marker" []) false]
        (.table "w" [])) egStmtHi = false := by
      simp [nodesEqual, Node.eqb, exprsEqb, Expr.eqb, egStmtHi, egQueryHi]
    simp only [resolveSubqueryExpressions]
    rw [hv, ok_bind, if_neg (by simp [he])]
    rfl
  · have hv : visitNodesExprs (subqueryExprStep fatalAnalyzer []) egStmtHi =
        .error (.other 7) := rfl
    simp only [resolveSubqueryExpressions]
    rw [hv, error_bind]

/-- C5 (witness): the deferred-only analysis hypothesis is satisfiable and
the rule succeeds under it at a concrete tree. -/
theorem subqueryExpr_deferred_errors_witness :
    (∀ q sc e, (deferAnalyzer q sc).err = some e → e.isDeferred = true) ∧
    (∃ y, resolveSubqueryExpressions deferAnalyzer [] egStmtHi = .ok y) := by
  have hd : ∀ (q : Node) (sc : Scope) (e : AErr),
      (deferAnalyzer q sc).err = some e → e.isDeferred = true := by
    intro q sc e h
    have h2 : some AErr.columnNotFound = some e := h
    cases h2
    rfl
  exact ⟨hd, subqueryExpr_deferred_errors.1 deferAnalyzer [] egStmtHi hd⟩

/-- The join branch of `joinScopeLenStep`, split on whether the join's left
child is already a `StripRowNode`. -/
theorem joinScopeLenStep_join (len : Nat) (jt : JoinType) (sl : Nat)
    (l r : Node) :
    (isStripNode l = true →
      joinScopeLenStep len (.join jt sl l r) = .ok (.join jt len l r, true)) ∧
    (isStripNode l = false →
      joinScopeLenStep len (.join jt sl l r) =
        .ok (.join jt len (.stripRowNode l len) (.stripRowNode r len),
          false)) := by
  cases l with
  | stripRowNode c k => exact ⟨fun _ => rfl, fun h => by simp [isStripNode] at h⟩
  | table nm cols => exact ⟨fun h => by simp [isStripNode] at h, fun _ => rfl⟩
  | project es c => exact ⟨fun h => by simp [isStripNode] at h, fun _ => rfl⟩
  | subqueryAlias nm cols c =>
      exact ⟨fun h => by simp [isStripNode] at h, fun _ => rfl⟩
  | join jt2 sl2 l2 r2 =>
      exact ⟨fun h => by simp [isStripNode] at h, fun _ => rfl⟩
  | indexedJoin l2 r2 =>
      exact ⟨fun h => by simp [isStripNode] at h, fun _ => rfl⟩
  | cachedResults c => exact ⟨fun h => by simp [isStripNode] at h, fun _ => rfl⟩
  | triggerBlock b => exact ⟨fun h => by simp [isStripNode] at h, fun _ => rfl⟩
  | queryProcess c => exact ⟨fun h => by simp [isStripNode] at h, fun _ => rfl⟩
  | startTransaction c =>
      exact ⟨fun h => by simp [isStripNode] at h, fun _ => rfl⟩

/-- `joinScopeLenStep` never fails. -/
theorem joinScopeLenStep_total (len : Nat) :
    ∀ m, ∃ x, joinScopeLenStep len m = .ok x := by
  intro m
  cases m with
  | join jt sl l r =>
      cases hst : isStripNode l with
      | true => exact ⟨_, (joinScopeLenStep_join len jt sl l r).1 hst⟩
      | false => exact ⟨_, (joinScopeLenStep_join len jt sl l r).2 hst⟩
  | table nm cols => exact ⟨(.table nm cols, true), rfl⟩
  | project es c => exact ⟨(.project es c, true), rfl⟩
  | subqueryAlias nm cols c => exact ⟨(.subqueryAlias nm cols c, true), rfl⟩
  | indexedJoin l r => exact ⟨(.indexedJoin l r, true), rfl⟩
  | cachedResults c => exact ⟨(.cachedResults c, true), rfl⟩
  | stripRowNode c k => exact ⟨(.stripRowNode c k, true), rfl⟩
  | triggerBlock b => exact ⟨(.triggerBlock b, true), rfl⟩
  | queryProcess c => exact ⟨(.queryProcess c, true), rfl⟩
  | startTransaction c => exact ⟨(.startTransaction c, true), rfl⟩

/-- Unary-constructor case of the `setJoinScopeLen` well-formedness
induction. -/
theorem sjsl_wf_unary (len : Nat) (c : Node) (rebuild : Node → Node)
    (hstep : ∀ m, joinScopeLenStep len (rebuild m) = .ok (rebuild m, true))
    (hwf : ∀ m, joinsWellFormed len (rebuild m) = joinsWellFormed len m)
    (ihc : ∀ rc, visitNodes (joinScopeLenStep len) c = .ok rc →
      joinsWellFormed len rc.1 = true ∧ (rc.2 = true → rc.1 = c)) :
    ∀ y, (do
        let rc ← visitNodes (joinScopeLenStep len) c
        let r ← joinScopeLenStep len (rebuild (pick c rc))
        pure (r.1, rc.2 && r.2) : Except AErr (Node × Bool)) = .ok y →
      joinsWellFormed len y.1 = true ∧ (y.2 = true → y.1 = rebuild c) := by
  intro y h
  obtain ⟨rc, r, hrc, hr, hy⟩ := do2_ok h
  have ih := ihc rc hrc
  rw [pick_eq_of_same_imp ih.2, hstep rc.1] at hr
  cases hr
  subst hy
  refine ⟨?_, ?_⟩
  · show joinsWellFormed len (rebuild rc.1) = true
    rw [hwf rc.1]
    exact ih.1
  · intro ht
    have h2 : rc.2 = true := by simpa using ht
    show rebuild rc.1 = rebuild c
    rw [ih.2 h2]

mutual
/-- Under correctly pre-annotated input, the traversal of `setJoinScopeLen`
yields a tree whose every join carries the scope width and a `StripRowNode`
left child, and its `Same` flag is honest. -/
theorem sjsl_wf (len : Nat) :
    ∀ n, joinsAnnotated len n = true → ∀ y,
      visitNodes (joinScopeLenStep len) n = .ok y →
      joinsWellFormed len y.1 = true ∧ (y.2 = true → y.1 = n)
  | .table nm cols => by
      intro _ y h
      simp only [visitNodes] at h
      have h2 : (Except.ok (Node.table nm cols, true) :
          Except AErr (Node × Bool)) = .ok y := h
      cases h2
      exact ⟨rfl, fun _ => rfl⟩
  | .project es c => by
      intro hann y h
      simp only [visitNodes] at h
      exact sjsl_wf_unary len c (fun x => .project es x) (fun _ => rfl)
        (fun _ => rfl) (fun rc hrc => sjsl_wf len c hann rc hrc) y h
  | .subqueryAlias nm cols c => by
      intro hann y h
      simp only [visitNodes] at h
      exact sjsl_wf_unary len c (fun x => .subqueryAlias nm cols x)
        (fun _ => rfl) (fun _ => rfl)
        (fun rc hrc => sjsl_wf len c hann rc hrc) y h
  | .cachedResults c => by
      intro hann y h
      simp only [visitNodes] at h
      exact sjsl_wf_unary len c (fun x => .cachedResults x) (fun _ => rfl)
        (fun _ => rfl) (fun rc hrc => sjsl_wf len c hann rc hrc) y h
  | .stripRowNode c k => by
      intro hann y h
      simp only [visitNodes] at h
      exact sjsl_wf_unary len c (fun x => .stripRowNode x k) (fun _ => rfl)
        (fun _ => rfl) (fun rc hrc => sjsl_wf len c hann rc hrc) y h
  | .queryProcess c => by
      intro hann y h
      simp only [visitNodes] at h
      exact sjsl_wf_unary len c (fun x => .queryProcess x) (fun _ => rfl)
        (fun _ => rfl) (fun rc hrc => sjsl_wf len c hann rc hrc) y h
  | .startTransaction c => by
      intro hann y h
      simp only [visitNodes] at h
      exact sjsl_wf_unary len c (fun x => .startTransaction x) (fun _ => rfl)
        (fun _ => rfl) (fun rc hrc => sjsl_wf len c hann rc hrc) y h
  | .indexedJoin l r => by
      intro hann y h
      simp only [joinsAnnotated, Bool.and_eq_true] at hann
      simp only [visitNodes] at h
      obtain ⟨rl, rr, res, hrl, hrr, hres, hy⟩ := do3_ok h
      have ihl := sjsl_wf len l hann.1 rl hrl
      have ihr := sjsl_wf len r hann.2 rr hrr
      rw [pick_eq_of_same_imp ihl.2, pick_eq_of_same_imp ihr.2] at hres
      have h2 : (Except.ok (Node.indexedJoin rl.1 rr.1, true) :
          Except AErr (Node × Bool)) = .ok res := hres
      cases h2
      subst hy
      refine ⟨?_, ?_⟩
      · show joinsWellFormed len (.indexedJoin rl.1 rr.1) = true
        simp only [joinsWellFormed, Bool.and_eq_true]
        exact ⟨ihl.1, ihr.1⟩
      · intro ht
        have hb : ((rl.2 && rr.2) && true) = true := ht
        simp only [Bool.and_eq_true] at hb
        show Node.indexedJoin rl.1 rr.1 = .indexedJoin l r
        rw [ihl.2 hb.1.1, ihr.2 hb.1.2]
  | .join jt sl l r => by
      intro hann y h
      simp only [joinsAnnotated, Bool.and_eq_true] at hann
      simp only [visitNodes] at h
      obtain ⟨rl, rr, res, hrl, hrr, hres, hy⟩ := do3_ok h
      have ihl := sjsl_wf len l hann.1.2 rl hrl
      have ihr := sjsl_wf len r hann.2 rr hrr
      rw [pick_eq_of_same_imp ihl.2, pick_eq_of_same_imp ihr.2] at hres
      cases hst : isStripNode rl.1 with
      | true =>
          rw [(joinScopeLenStep_join len jt sl rl.1 rr.1).1 hst] at hres
          have h2 : (Except.ok (Node.join jt len rl.1 rr.1, true) :
              Except AErr (Node × Bool)) = .ok res := hres
          cases h2
          subst hy
          refine ⟨?_, ?_⟩
          · show joinsWellFormed len (.join jt len rl.1 rr.1) = true
            simp [joinsWellFormed, ihl.1, ihr.1, hst]
          · intro ht
            have hb : ((rl.2 && rr.2) && true) = true := ht
            simp only [Bool.and_eq_true] at hb
            have hl1 := ihl.2 hb.1.1
            have hr1 := ihr.2 hb.1.2
            have hsl : sl = len := by
              have hc := hann.1.1
              rw [hl1] at hst
              rw [if_pos hst] at hc
              exact beq_iff_eq.mp hc
            show Node.join jt len rl.1 rr.1 = .join jt sl l r
            rw [hl1, hr1, hsl]
      | false =>
          rw [(joinScopeLenStep_join len jt sl rl.1 rr.1).2 hst] at hres
          have h2 : (Except.ok (Node.join jt len (.stripRowNode rl.1 len)
              (.stripRowNode rr.1 len), false) :
              Except AErr (Node × Bool)) = .ok res := hres
          cases h2
          subst hy
          refine ⟨?_, ?_⟩
          · show joinsWellFormed len (.join jt len (.stripRowNode rl.1 len)
              (.stripRowNode rr.1 len)) = true
            simp [joinsWellFormed, isStripNode, ihl.1, ihr.1]
          · intro ht
            exact absurd ht (by simp)
  | .triggerBlock b => by
      intro hann y h
      simp only [visitNodes] at h
      obtain ⟨rb, r, hrb, hr, hy⟩ := do2_ok h
      have ih := sjsl_wfL len b hann rb hrb
      have h2 : (Except.ok (Node.triggerBlock rb.1, true) :
          Except AErr (Node × Bool)) = .ok r := hr
      cases h2
      subst hy
      refine ⟨?_, ?_⟩
      · show joinsWellFormed len (.triggerBlock rb.1) = true
        exact ih.1
      · intro ht
        have hb : (rb.2 && true) = true := ht
        simp only [Bool.and_eq_true] at hb
        show Node.triggerBlock rb.1 = .triggerBlock b
        rw [ih.2 hb.1]

theorem sjsl_wfL (len : Nat) :
    ∀ b, joinsAnnotatedL len b = true → ∀ ys,
      visitNodesList (joinScopeLenStep len) b = .ok ys →
      joinsWellFormedL len ys.1 = true ∧ (ys.2 = true → ys.1 = b)
  | [] => by
      intro _ ys h
      have h2 : (Except.ok (([] : List Node), true) :
          Except AErr (List Node × Bool)) = .ok ys := h
      cases h2
      exact ⟨rfl, fun _ => rfl⟩
  | n :: ns => by
      intro hann ys h
      simp only [joinsAnnotatedL, Bool.and_eq_true] at hann
      simp only [visitNodesList] at h
      obtain ⟨r, rs, hr, hrs, hy⟩ := doPair_ok h
      have ihh := sjsl_wf len n hann.1 r hr
      have iht := sjsl_wfL len ns hann.2 rs hrs
      subst hy
      rw [pick_eq_of_same_imp ihh.2]
      refine ⟨?_, ?_⟩
      · show joinsWellFormedL len (r.1 :: rs.1) = true
        simp only [joinsWellFormedL, Bool.and_eq_true]
        exact ⟨ihh.1, iht.1⟩
      · intro ht
        have hb : (r.2 && rs.2) = true := ht
        simp only [Bool.and_eq_true] at hb
        show r.1 :: rs.1 = n :: ns
        rw [ihh.2 hb.1, iht.2 hb.2]
end

/-- C7 (counterexample): the already-an-adapter guard checks only the left
operand. On a join whose right child is already a `StripRowNode` (but whose
left is not), `setJoinScopeLen` under a width-2 scope wraps both operands,
double-wrapping the right one — not the output the claim's per-operand
reading ("unless such an adapter is already the immediate child")
prescribes. -/
theorem setJoinScopeLen_left_guard_counterexample :
    setJoinScopeLen egScope2 egRightStripJoin =
      .ok (egRightStripJoinOut, false) ∧
    egRightStripJoinOut ≠ egRightStripJoinClaim := by
  constructor
  · rfl
  · simp [egRightStripJoinOut, egRightStripJoinClaim]

/-- C7 (amended): with an empty outer scope the rule returns the input
unchanged with `Same`; the rule never fails; with a non-empty outer scope
it decides wrapping on the left operand alone — a join whose left child is
not a `StripRowNode` has both operands wrapped (even a right operand that
is already an adapter is wrapped again, see the concrete equations), while
a join whose left child is already a `StripRowNode` keeps its operands and
only has its annotation refreshed — and, provided every pre-wrapped join
already carries the scope width, every join of the output is annotated with
the scope width and has a `StripRowNode` as its immediate left child. -/
theorem setJoinScopeLen_characterization :
    (∀ (scope : Scope) (n : Node), scope.schema.length = 0 →
      setJoinScopeLen scope n = .ok (n, true)) ∧
    (∀ (scope : Scope) (n : Node) y, scope.schema.length ≠ 0 →
      joinsAnnotated scope.schema.length n = true →
      setJoinScopeLen scope n = .ok y →
      joinsWellFormed scope.schema.length y.1 = true) ∧
    (∀ (scope : Scope) (n : Node), ∃ y, setJoinScopeLen scope n = .ok y) ∧
    (setJoinScopeLen egScope2 egRightStripJoin =
      .ok (egRightStripJoinOut, false)) ∧
    (setJoinScopeLen egScope2 egAnnotatedJoin =
      .ok (egAnnotatedJoin, true)) := by
  refine ⟨?_, ?_, ?_, rfl, rfl⟩
  · intro scope n h
    simp only [setJoinScopeLen]
    rw [if_pos h]
    rfl
  · intro scope n y hne hann h
    simp only [setJoinScopeLen] at h
    rw [if_neg hne] at h
    exact (sjsl_wf scope.schema.length n hann y h).1
  · intro scope n
    by_cases hz : scope.schema.length = 0
    · exact ⟨(n, true), by simp only [setJoinScopeLen]; rw [if_pos hz]; rfl⟩
    · obtain ⟨y, hy⟩ := visitNodes_total (joinScopeLenStep
        scope.schema.length) (joinScopeLenStep_total scope.schema.length) n
      exact ⟨y, by simp only [setJoinScopeLen]; rw [if_neg hz]; exact hy⟩

/-- C7 (witness): the characterization applied at concrete inputs — the
empty scope leaves even a stale join untouched, and the width-2 scope keeps
a correctly annotated pre-wrapped join well-formed. -/
theorem setJoinScopeLen_characterization_witness :
    ((Scope.schema ([] : Scope)).length = 0 ∧
      setJoinScopeLen [] egStaleJoin = .ok (egStaleJoin, true)) ∧
    ((Scope.schema egScope2).length ≠ 0 ∧
      joinsAnnotated (Scope.schema egScope2).length egAnnotatedJoin = true ∧
      joinsWellFormed (Scope.schema egScope2).length egAnnotatedJoin =
        true) := by
  have h0 : (Scope.schema ([] : Scope)).length = 0 := rfl
  have hne : (Scope.schema egScope2).length ≠ 0 := by decide
  have hann : joinsAnnotated (Scope.schema egScope2).length egAnnotatedJoin =
      true := rfl
  have heq : setJoinScopeLen egScope2 egAnnotatedJoin =
      .ok (egAnnotatedJoin, true) := rfl
  exact ⟨⟨h0, setJoinScopeLen_characterization.1 [] egStaleJoin h0⟩,
    ⟨hne, hann, setJoinScopeLen_characterization.2.1 egScope2 egAnnotatedJoin
      (egAnnotatedJoin, true) hne hann heq⟩⟩

mutual
/-- `exprIsCacheable` is exactly "no `GetField` below the minimum index and
no non-deterministic sub-expression", over the expression-children
structure the inspection walks. -/
theorem exprIsCacheable_eq (low : Nat) :
    ∀ e, exprIsCacheable low e =
      (!exprHasLowGF low e && !exprHasNondet e)
  | .literal v => by simp [exprIsCacheable, exprHasLowGF, exprHasNondet]
  | .getField i nm => by
      by_cases h : i < low
      · simp [exprIsCacheable, exprHasLowGF, exprHasNondet, h]
      · simp [exprIsCacheable, exprHasLowGF, exprHasNondet, h]
  | .uCol nm => by simp [exprIsCacheable, exprHasLowGF, exprHasNondet]
  | .uFunc nm args w => by
      simp only [exprIsCacheable, exprHasLowGF, exprHasNondet]
      exact exprsCacheable_eq low args
  | .funcE nm args w k nd => by
      cases nd with
      | true => simp [exprIsCacheable, exprHasLowGF, exprHasNondet]
      | false =>
          simp only [exprIsCacheable, exprHasLowGF, exprHasNondet,
            Bool.false_or, if_false]
          exact exprsCacheable_eq low args
  | .subquery q c => by simp [exprIsCacheable, exprHasLowGF, exprHasNondet]

theorem exprsCacheable_eq (low : Nat) :
    ∀ es, exprsCacheable low es =
      (!exprsHaveLowGF low es && !exprsHaveNondet es)
  | [] => by simp [exprsCacheable, exprsHaveLowGF, exprsHaveNondet]
  | e :: es => by
      simp only [exprsCacheable, exprsHaveLowGF, exprsHaveNondet]
      rw [exprIsCacheable_eq low e, exprsCacheable_eq low es]
      simp only [Bool.not_or]
      cases exprHasLowGF low e <;> cases exprHasNondet e <;>
        cases exprsHaveLowGF low es <;> cases exprsHaveNondet es <;> rfl
end

mutual
/-- An expression whose every `GetField` (taken across all nesting, inner
subquery plans included) is at least `low`, with no non-deterministic
sub-expression anywhere, is cacheable. -/
theorem exprGFge_cacheable (low : Nat) :
    ∀ e, exprGFge low e = true → exprNoNondet e = true →
      exprIsCacheable low e = true
  | .literal v => by intro _ _; rfl
  | .getField i nm => by
      intro h1 _
      simp only [exprGFge, decide_eq_true_eq] at h1
      simp [exprIsCacheable, Nat.not_lt.mpr h1]
  | .uCol nm => by intro _ _; rfl
  | .uFunc nm args w => by
      intro h1 h2
      simp only [exprGFge] at h1
      simp only [exprNoNondet] at h2
      simp only [exprIsCacheable]
      exact exprsGFge_cacheable low args h1 h2
  | .funcE nm args w k nd => by
      intro h1 h2
      simp only [exprGFge] at h1
      simp only [exprNoNondet, Bool.and_eq_true] at h2
      have hnd : nd = false := by
        cases nd with
        | false => rfl
        | true => exact absurd h2.1 (by simp)
      simp only [exprIsCacheable, hnd, if_false]
      exact exprsGFge_cacheable low args h1 h2.2
  | .subquery q c => by intro _ _; rfl

theorem exprsGFge_cacheable (low : Nat) :
    ∀ es, exprsGFge low es = true → exprsNoNondet es = true →
      exprsCacheable low es = true
  | [] => by intro _ _; rfl
  | e :: es => by
      intro h1 h2
      simp only [exprsGFge, Bool.and_eq_true] at h1
      simp only [exprsNoNondet, Bool.and_eq_true] at h2
      simp only [exprsCacheable, Bool.and_eq_true]
      exact ⟨exprGFge_cacheable low e h1.1 h2.1,
        exprsGFge_cacheable low es h1.2 h2.2⟩
end

mutual
/-- A plan whose every `GetField` is at least `low` and which holds no
non-deterministic expression anywhere is cacheable. -/
theorem nodeGFge_cacheable (low : Nat) :
    ∀ n, nodeGFge low n = true → nodeNoNondet n = true →
      nodeIsCacheable low n = true
  | .table nm cols => by intro _ _; rfl
  | .project es c => by
      intro h1 h2
      simp only [nodeGFge, Bool.and_eq_true] at h1
      simp only [nodeNoNondet, Bool.and_eq_true] at h2
      simp only [nodeIsCacheable, Bool.and_eq_true]
      exact ⟨exprsGFge_cacheable low es h1.1 h2.1,
        nodeGFge_cacheable low c h1.2 h2.2⟩
  | .subqueryAlias nm cols c => by intro _ _; rfl
  | .join jt sl l r => by
      intro h1 h2
      simp only [nodeGFge, Bool.and_eq_true] at h1
      simp only [nodeNoNondet, Bool.and_eq_true] at h2
      simp only [nodeIsCacheable, Bool.and_eq_true]
      exact ⟨nodeGFge_cacheable low l h1.1 h2.1,
        nodeGFge_cacheable low r h1.2 h2.2⟩
  | .indexedJoin l r => by
      intro h1 h2
      simp only [nodeGFge, Bool.and_eq_true] at h1
      simp only [nodeNoNondet, Bool.and_eq_true] at h2
      simp only [nodeIsCacheable, Bool.and_eq_true]
      exact ⟨nodeGFge_cacheable low l h1.1 h2.1,
        nodeGFge_cacheable low r h1.2 h2.2⟩
  | .cachedResults c => fun h1 h2 => nodeGFge_cacheable low c h1 h2
  | .stripRowNode c k => fun h1 h2 => nodeGFge_cacheable low c h1 h2
  | .triggerBlock b => fun h1 h2 => nodesGFge_cacheable low b h1 h2
  | .queryProcess c => fun h1 h2 => nodeGFge_cacheable low c h1 h2
  | .startTransaction c => fun h1 h2 => nodeGFge_cacheable low c h1 h2

theorem nodesGFge_cacheable (low : Nat) :
    ∀ b, nodesGFge low b = true → nodesNoNondet b = true →
      nodesCacheable low b = true
  | [] => by intro _ _; rfl
  | n :: ns => by
      intro h1 h2
      simp only [nodesGFge, Bool.and_eq_true] at h1
      simp only [nodesNoNondet, Bool.and_eq_true] at h2
      simp only [nodesCacheable, Bool.and_eq_true]
      exact ⟨nodeGFge_cacheable low n h1.1 h2.1,
        nodesGFge_cacheable low ns h1.2 h2.2⟩
end

/-- C2: `exprIsCacheable(e, i)` holds exactly when every `GetField` in the
expression has index at least `i` and no sub-expression reports itself
non-deterministic; a plan referencing only columns at or above `i` with no
non-determinism anywhere is `nodeIsCacheable`; and, through
`cacheSubqueryResults`, a subquery over a plan referencing only the column
at the derived scope width (index 1) is marked cacheable, while adding one
reference below that width (index 0) leaves it unmarked. -/
theorem exprIsCacheable_characterization :
    (∀ (low : Nat) (e : Expr), exprIsCacheable low e =
      (!exprHasLowGF low e && !exprHasNondet e)) ∧
    (∀ (low : Nat) (n : Node), nodeGFge low n = true →
      nodeNoNondet n = true → nodeIsCacheable low n = true) ∧
    (cacheSubqueryResults [] egStmtHi =
      .ok (.project [.subquery egQueryHi true] (.table "w" []), false)) ∧
    (cacheSubqueryResults [] egStmtLo = .ok (egStmtLo, true)) :=
  ⟨fun low e => exprIsCacheable_eq low e,
    fun low n => nodeGFge_cacheable low n, rfl, rfl⟩

/-- C2 (witness): the characterization applied at the inner query `egQueryHi`
with minimum index 1. -/
theorem exprIsCacheable_characterization_witness :
    nodeGFge 1 egQueryHi = true ∧ nodeNoNondet egQueryHi = true ∧
    nodeIsCacheable 1 egQueryHi = true :=
  ⟨rfl, rfl, exprIsCacheable_characterization.2.1 1 egQueryHi rfl rfl⟩

/-- A single-child traversal step over a child whose rewrite was clean
reduces to the callback at the rebuilt original. -/
theorem vn_unary_clean (f : Node → Except AErr (Node × Bool)) (c : Node)
    (rebuild : Node → Node) (hc : visitNodes f c = .ok (c, true)) :
    (do
      let rc ← visitNodes f c
      let r ← f (rebuild (pick c rc))
      pure (r.1, rc.2 && r.2) : Except AErr (Node × Bool)) = f (rebuild c) := by
  rw [hc, ok_bind]
  show (do
    let r ← f (rebuild c)
    pure (r.1, true && r.2) : Except AErr (Node × Bool)) = f (rebuild c)
  cases hr : f (rebuild c) with
  | error e => rw [error_bind]
  | ok r => rw [ok_bind]; rfl

/-- The two-child analogue of `vn_unary_clean`. -/
theorem vn_binary_clean (f : Node → Except AErr (Node × Bool)) (l r : Node)
    (rebuild : Node → Node → Node) (hl : visitNodes f l = .ok (l, true))
    (hr : visitNodes f r = .ok (r, true)) :
    (do
      let rl ← visitNodes f l
      let rr ← visitNodes f r
      let res ← f (rebuild (pick l rl) (pick r rr))
      pure (res.1, rl.2 && rr.2 && res.2) : Except AErr (Node × Bool)) =
    f (rebuild l r) := by
  rw [hl, ok_bind, hr, ok_bind]
  show (do
    let res ← f (rebuild l r)
    pure (res.1, (true && true) && res.2) : Except AErr (Node × Bool)) =
      f (rebuild l r)
  cases hres : f (rebuild l r) with
  | error e => rw [error_bind]
  | ok res => rw [ok_bind]; rfl

/-- The list analogue of `vn_unary_clean` for a clean head element. -/
theorem vnList_clean (f : Node → Except AErr (Node × Bool)) (n : Node)
    (ns : List Node) (hn : visitNodes f n = .ok (n, true)) :
    visitNodesList f (n :: ns) = (do
      let rs ← visitNodesList f ns
      pure (n :: rs.1, rs.2) : Except AErr (List Node × Bool)) := by
  simp only [visitNodesList]
  rw [hn, ok_bind]
  show (do
    let rs ← visitNodesList f ns
    pure (n :: rs.1, true && rs.2) : Except AErr (List Node × Bool)) = _
  cases hrs : visitNodesList f ns with
  | error e => rw [error_bind, error_bind]
  | ok rs => rw [ok_bind, ok_bind]; rfl

mutual
/-- With the identity analysis, `resolveSubqueries`' traversal raises
`ColumnCountMismatch` exactly on the trees containing a mismatched
subquery alias, and returns the input with `Same` otherwise. -/
theorem mismatch_char :
    ∀ n, (hasMismatchSA n = true →
        visitNodes (subqueryAliasStep idAnalyzer) n =
          .error .columnCountMismatch) ∧
      (hasMismatchSA n = false →
        visitNodes (subqueryAliasStep idAnalyzer) n = .ok (n, true))
  | .table nm cols => by
      constructor
      · intro hmm; exact absurd hmm (by simp [hasMismatchSA])
      · intro _; rfl
  | .project es c => by
      constructor
      · intro hmm
        have hc : hasMismatchSA c = true := hmm
        simp only [visitNodes]
        rw [(mismatch_char c).1 hc, error_bind]
      · intro hmm
        have hc : hasMismatchSA c = false := hmm
        simp only [visitNodes]
        rw [vn_unary_clean _ c (fun x => .project es x)
          ((mismatch_char c).2 hc)]
        rfl
  | .subqueryAlias nm cols c => by
      constructor
      · intro hmm
        simp only [visitNodes]
        cases hc : hasMismatchSA c with
        | true => rw [(mismatch_char c).1 hc, error_bind]
        | false =>
            have hm : 0 < cols.length ∧ schemaLength c ≠ cols.length := by
              simp only [hasMismatchSA, hc, Bool.or_false, Bool.and_eq_true,
                decide_eq_true_eq] at hmm
              exact hmm
            rw [vn_unary_clean _ c (fun x => .subqueryAlias nm cols x)
              ((mismatch_char c).2 hc)]
            show subqueryAliasStep idAnalyzer (.subqueryAlias nm cols c) =
              .error .columnCountMismatch
            simp only [subqueryAliasStep, idAnalyzer]
            rw [if_pos hm]
      · intro hmm
        cases hc : hasMismatchSA c with
        | true => exact absurd hmm (by simp [hasMismatchSA, hc])
        | false =>
            have hm : ¬(0 < cols.length ∧ schemaLength c ≠ cols.length) := by
              simp only [hasMismatchSA, hc, Bool.or_false] at hmm
              intro hcon
              rw [Bool.and_eq_false_iff] at hmm
              cases hmm with
              | inl h => simp [hcon.1] at h
              | inr h => simp [hcon.2] at h
            simp only [visitNodes]
            rw [vn_unary_clean _ c (fun x => .subqueryAlias nm cols x)
              ((mismatch_char c).2 hc)]
            show subqueryAliasStep idAnalyzer (.subqueryAlias nm cols c) =
              .ok (.subqueryAlias nm cols c, true)
            simp only [subqueryAliasStep, idAnalyzer]
            rw [if_neg hm, if_pos trivial]
            rfl
  | .join jt sl l r => by
      constructor
      · intro hmm
        simp only [visitNodes]
        cases hcl : hasMismatchSA l with
        | true => rw [(mismatch_char l).1 hcl, error_bind]
        | false =>
            have hcr : hasMismatchSA r = true := by
              simp only [hasMismatchSA, hcl, Bool.false_or] at hmm
              exact hmm
            rw [(mismatch_char l).2 hcl, ok_bind,
              (mismatch_char r).1 hcr, error_bind]
      · intro hmm
        simp only [hasMismatchSA, Bool.or_eq_false_iff] at hmm
        simp only [visitNodes]
        rw [vn_binary_clean _ l r (fun x z => .join jt sl x z)
          ((mismatch_char l).2 hmm.1) ((mismatch_char r).2 hmm.2)]
        rfl
  | .indexedJoin l r => by
      constructor
      · intro hmm
        simp only [visitNodes]
        cases hcl : hasMismatchSA l with
        | true => rw [(mismatch_char l).1 hcl, error_bind]
        | false =>
            have hcr : hasMismatchSA r = true := by
              simp only [hasMismatchSA, hcl, Bool.false_or] at hmm
              exact hmm
            rw [(mismatch_char l).2 hcl, ok_bind,
              (mismatch_char r).1 hcr, error_bind]
      · intro hmm
        simp only [hasMismatchSA, Bool.or_eq_false_iff] at hmm
        simp only [visitNodes]
        rw [vn_binary_clean _ l r (fun x z => .indexedJoin x z)
          ((mismatch_char l).2 hmm.1) ((mismatch_char r).2 hmm.2)]
        rfl
  | .cachedResults c => by
      constructor
      · intro hmm
        have hc : hasMismatchSA c = true := hmm
        simp only [visitNodes]
        rw [(mismatch_char c).1 hc, error_bind]
      · intro hmm
        have hc : hasMismatchSA c = false := hmm
        simp only [visitNodes]
        rw [vn_unary_clean _ c (fun x => .cachedResults x)
          ((mismatch_char c).2 hc)]
        rfl
  | .stripRowNode c k => by
      constructor
      · intro hmm
        have hc : hasMismatchSA c = true := hmm
        simp only [visitNodes]
        rw [(mismatch_char c).1 hc, error_bind]
      · intro hmm
        have hc : hasMismatchSA c = false := hmm
        simp only [visitNodes]
        rw [vn_unary_clean _ c (fun x => .stripRowNode x k)
          ((mismatch_char c).2 hc)]
        rfl
  | .triggerBlock b => by
      constructor
      · intro hmm
        have hb : hasMismatchSAL b = true := hmm
        simp only [visitNodes]
        rw [(mismatch_charL b).1 hb, error_bind]
      · intro hmm
        have hb : hasMismatchSAL b = false := hmm
        simp only [visitNodes]
        rw [(mismatch_charL b).2 hb, ok_bind]
        rfl
  | .queryProcess c => by
      constructor
      · intro hmm
        have hc : hasMismatchSA c = true := hmm
        simp only [visitNodes]
        rw [(mismatch_char c).1 hc, error_bind]
      · intro hmm
        have hc : hasMismatchSA c = false := hmm
        simp only [visitNodes]
        rw [vn_unary_clean _ c (fun x => .queryProcess x)
          ((mismatch_char c).2 hc)]
        rfl
  | .startTransaction c => by
      constructor
      · intro hmm
        have hc : hasMismatchSA c = true := hmm
        simp only [visitNodes]
        rw [(mismatch_char c).1 hc, error_bind]
      · intro hmm
        have hc : hasMismatchSA c = false := hmm
        simp only [visitNodes]
        rw [vn_unary_clean _ c (fun x => .startTransaction x)
          ((mismatch_char c).2 hc)]
        rfl

theorem mismatch_charL :
    ∀ b, (hasMismatchSAL b = true →
        visitNodesList (subqueryAliasStep idAnalyzer) b =
          .error .columnCountMismatch) ∧
      (hasMismatchSAL b = false →
        visitNodesList (subqueryAliasStep idAnalyzer) b = .ok (b, true))
  | [] => by
      constructor
      · intro hmm; exact absurd hmm (by simp [hasMismatchSAL])
      · intro _; rfl
  | n :: ns => by
      constructor
      · intro hmm
        cases hcn : hasMismatchSA n with
        | true =>
            simp only [visitNodesList]
            rw [(mismatch_char n).1 hcn, error_bind]
        | false =>
            have hcns : hasMismatchSAL ns = true := by
              simp only [hasMismatchSAL, hcn, Bool.false_or] at hmm
              exact hmm
            rw [vnList_clean _ n ns ((mismatch_char n).2 hcn),
              (mismatch_charL ns).1 hcns, error_bind]
      · intro hmm
        simp only [hasMismatchSAL, Bool.or_eq_false_iff] at hmm
        rw [vnList_clean _ n ns ((mismatch_char n).2 hmm.1),
          (mismatch_charL ns).2 hmm.2, ok_bind]
        rfl
end

/-- C6: with the identity analysis isolating the rule's own check,
`resolveSubqueries` (and the body-identical `finalizeSubqueries`) fails with
`ColumnCountMismatch` if and only if some `SubqueryAlias` in the tree
carries a non-empty column-alias list whose length disagrees with its
child's output arity; with no such alias it returns the tree unchanged. The
spec's example — one alias name over a two-column child — fails, while
matching arities and an empty alias list do not. -/
theorem columnCountMismatch_characterization :
    (∀ n, hasMismatchSA n = true →
      resolveSubqueries idAnalyzer [] n = .error .columnCountMismatch) ∧
    (∀ n, hasMismatchSA n = false →
      resolveSubqueries idAnalyzer [] n = .ok (n, true)) ∧
    finalizeSubqueries = resolveSubqueries ∧
    resolveSubqueries idAnalyzer [] egSAMismatch =
      .error .columnCountMismatch ∧
    resolveSubqueries idAnalyzer [] egSAMatch = .ok (egSAMatch, true) ∧
    resolveSubqueries idAnalyzer []
      (.subqueryAlias "s" [] (.table "t" ["a", "b"])) =
      .ok (.subqueryAlias "s" [] (.table "t" ["a", "b"]), true) := by
  refine ⟨?_, ?_, rfl, ?_, ?_, ?_⟩
  · intro n h; exact (mismatch_char n).1 h
  · intro n h; exact (mismatch_char n).2 h
  · exact (mismatch_char egSAMismatch).1 rfl
  · exact (mismatch_char egSAMatch).2 rfl
  · exact (mismatch_char (.subqueryAlias "s" [] (.table "t" ["a", "b"]))).2 rfl

/-- C6 (witness): the characterization instantiated at the mismatched and
matched concrete aliases. -/
theorem columnCountMismatch_characterization_witness :
    (hasMismatchSA egSAMismatch = true ∧
      resolveSubqueries idAnalyzer [] egSAMismatch =
        .error .columnCountMismatch) ∧
    (hasMismatchSA egSAMatch = false ∧
      resolveSubqueries idAnalyzer [] egSAMatch = .ok (egSAMatch, true)) :=
  ⟨⟨rfl, columnCountMismatch_characterization.1 egSAMismatch rfl⟩,
    ⟨rfl, columnCountMismatch_characterization.2.1 egSAMatch rfl⟩⟩

mutual
/-- A resolved expression contains no unresolved function call. -/
theorem resolved_noUFuncE : ∀ e, Expr.resolvedB e = true → noUFuncE e = true
  | .literal _, _ => rfl
  | .getField _ _, _ => rfl
  | .uCol _, h => absurd h (by simp [Expr.resolvedB])
  | .uFunc _ _ _, h => absurd h (by simp [Expr.resolvedB])
  | .funcE nm args w k d, h => by
      simp only [Expr.resolvedB] at h
      simp only [noUFuncE]
      exact resolved_noUFuncEs args h
  | .subquery _ _, _ => rfl

theorem resolved_noUFuncEs :
    ∀ es, exprsResolvedB es = true → noUFuncEs es = true
  | [], _ => rfl
  | e :: es, h => by
      simp only [exprsResolvedB, Bool.and_eq_true] at h
      simp only [noUFuncEs, Bool.and_eq_true]
      exact ⟨resolved_noUFuncE e h.1, resolved_noUFuncEs es h.2⟩
end

mutual
/-- Expression-level function resolution: when every unresolved call names a
catalog function, the bottom-up rewrite succeeds and leaves no unresolved
call behind. -/
theorem rfie_ok (cat : Catalog) :
    ∀ e, uFuncsKnownE cat e = true →
      ∃ e2, exprTransformUpNoCtx (resolveFunctionsInExpr cat) e = .ok e2 ∧
        noUFuncE e2 = true
  | .literal v, _ => ⟨.literal v, rfl, rfl⟩
  | .getField i nm, _ => ⟨.getField i nm, rfl, rfl⟩
  | .uCol nm, _ => ⟨.uCol nm, rfl, rfl⟩
  | .subquery q c, _ => by
      by_cases h : Expr.resolvedB (.subquery q c) = true
      · exact ⟨.subquery q c, by
          simp [exprTransformUpNoCtx, resolveFunctionsInExpr, h, pure,
            Except.pure], rfl⟩
      · exact ⟨.subquery q c, by
          simp [exprTransformUpNoCtx, resolveFunctionsInExpr, h, pure,
            Except.pure], rfl⟩
  | .uFunc nm args w, hk => by
      simp only [uFuncsKnownE, Bool.and_eq_true] at hk
      obtain ⟨as, has, hnoas⟩ := rfies_ok cat args hk.2
      obtain ⟨impl, himpl⟩ := Option.isSome_iff_exists.mp hk.1
      have hb : ∃ e2, resolveFunctionsInExpr cat (.uFunc nm as w) = .ok e2 ∧
          noUFuncE e2 = true := by
        cases impl with
        | mk kind nd =>
            cases kind with
            | scalar =>
                exact ⟨.funcE nm as none .scalar nd, by
                  simp [resolveFunctionsInExpr, Expr.resolvedB, himpl, pure,
                    Except.pure], by simp [noUFuncE, hnoas]⟩
            | aggregation =>
                exact ⟨.funcE nm as w .aggregation nd, by
                  simp [resolveFunctionsInExpr, Expr.resolvedB, himpl, pure,
                    Except.pure], by simp [noUFuncE, hnoas]⟩
            | windowAggregation =>
                exact ⟨.funcE nm as w .windowAggregation nd, by
                  simp [resolveFunctionsInExpr, Expr.resolvedB, himpl, pure,
                    Except.pure], by simp [noUFuncE, hnoas]⟩
      obtain ⟨e2, he2, hno⟩ := hb
      refine ⟨e2, ?_, hno⟩
      simp only [exprTransformUpNoCtx]
      rw [has, ok_bind]
      exact he2
  | .funcE nm args w k d, hk => by
      simp only [uFuncsKnownE] at hk
      obtain ⟨as, has, hnoas⟩ := rfies_ok cat args hk
      refine ⟨.funcE nm as w k d, ?_, by simp [noUFuncE, hnoas]⟩
      simp only [exprTransformUpNoCtx]
      rw [has, ok_bind]
      by_cases h : Expr.resolvedB (.funcE nm as w k d) = true
      · simp [resolveFunctionsInExpr, h, pure, Except.pure]
      · simp [resolveFunctionsInExpr, h, pure, Except.pure]

theorem rfies_ok (cat : Catalog) :
    ∀ es, uFuncsKnownEs cat es = true →
      ∃ es2, exprsTransformUpNoCtx (resolveFunctionsInExpr cat) es =
        .ok es2 ∧ noUFuncEs es2 = true
  | [], _ => ⟨[], rfl, rfl⟩
  | e :: es, hk => by
      simp only [uFuncsKnownEs, Bool.and_eq_true] at hk
      obtain ⟨e2, he2, hno⟩ := rfie_ok cat e hk.1
      obtain ⟨es2, hes2, hnos⟩ := rfies_ok cat es hk.2
      refine ⟨e2 :: es2, ?_, by simp [noUFuncEs, hno, hnos]⟩
      simp only [exprsTransformUpNoCtx]
      rw [he2, ok_bind, hes2, ok_bind]
      rfl
end

/-- `resolveFunctionsStep` is the identity on nodes that carry no
expressions. -/
theorem rfStep_pure (cat : Catalog) (m : Node)
    (hm : TransformExpressionsUp (resolveFunctionsInExpr cat) m = pure m) :
    resolveFunctionsStep cat m = pure m := by
  by_cases h : m.resolvedB = true
  · simp [resolveFunctionsStep, h]
  · simp [resolveFunctionsStep, h, hm]

mutual
/-- A resolved plan node contains no unresolved function call in its
attached expressions. -/
theorem resolved_noUFuncN : ∀ n, Node.resolvedB n = true → noUFuncN n = true
  | .table _ _, _ => rfl
  | .project es c, h => by
      simp only [Node.resolvedB, Bool.and_eq_true] at h
      simp only [noUFuncN, Bool.and_eq_true]
      exact ⟨resolved_noUFuncEs es h.1, resolved_noUFuncN c h.2⟩
  | .subqueryAlias _ _ c, h => resolved_noUFuncN c h
  | .join _ _ l r, h => by
      simp only [Node.resolvedB, Bool.and_eq_true] at h
      simp only [noUFuncN, Bool.and_eq_true]
      exact ⟨resolved_noUFuncN l h.1, resolved_noUFuncN r h.2⟩
  | .indexedJoin l r, h => by
      simp only [Node.resolvedB, Bool.and_eq_true] at h
      simp only [noUFuncN, Bool.and_eq_true]
      exact ⟨resolved_noUFuncN l h.1, resolved_noUFuncN r h.2⟩
  | .cachedResults c, h => resolved_noUFuncN c h
  | .stripRowNode c _, h => resolved_noUFuncN c h
  | .triggerBlock b, h => resolved_noUFuncNs b h
  | .queryProcess c, h => resolved_noUFuncN c h
  | .startTransaction c, h => resolved_noUFuncN c h

theorem resolved_noUFuncNs :
    ∀ b, nodesResolvedB b = true → noUFuncNs b = true
  | [], _ => rfl
  | n :: ns, h => by
      simp only [nodesResolvedB, Bool.and_eq_true] at h
      simp only [noUFuncNs, Bool.and_eq_true]
      exact ⟨resolved_noUFuncN n h.1, resolved_noUFuncNs ns h.2⟩
end

mutual
/-- Node-level function resolution: when every unresolved call in the tree
names a catalog function, `resolveFunctions`' traversal succeeds and leaves
no unresolved call in any attached expression. -/
theorem rf_ok (cat : Catalog) :
    ∀ n, uFuncsKnownN cat n = true →
      ∃ m, TransformUp (resolveFunctionsStep cat) n = .ok m ∧
        noUFuncN m = true
  | .table nm cols, _ => ⟨.table nm cols, rfl, rfl⟩
  | .project es c, hk => by
      simp only [uFuncsKnownN, Bool.and_eq_true] at hk
      obtain ⟨c2, hc2, hnoc⟩ := rf_ok cat c hk.2
      by_cases hres : Node.resolvedB (.project es c2) = true
      · refine ⟨.project es c2, ?_, ?_⟩
        · simp only [TransformUp]
          rw [hc2, ok_bind]
          simp [resolveFunctionsStep, hres, pure, Except.pure]
        · simp only [Node.resolvedB, Bool.and_eq_true] at hres
          simp only [noUFuncN, Bool.and_eq_true]
          exact ⟨resolved_noUFuncEs es hres.1, hnoc⟩
      · obtain ⟨es2, hes2, hnos⟩ := rfies_ok cat es hk.1
        refine ⟨.project es2 c2, ?_, ?_⟩
        · simp only [TransformUp]
          rw [hc2, ok_bind]
          simp only [resolveFunctionsStep, hres, if_false]
          simp only [TransformExpressionsUp]
          rw [hes2, ok_bind]
          rfl
        · simp only [noUFuncN, Bool.and_eq_true]
          exact ⟨hnos, hnoc⟩
  | .subqueryAlias nm cols c, hk => by
      obtain ⟨c2, hc2, hnoc⟩ := rf_ok cat c hk
      refine ⟨.subqueryAlias nm cols c2, ?_, hnoc⟩
      simp only [TransformUp]
      rw [hc2, ok_bind, rfStep_pure cat (.subqueryAlias nm cols c2) rfl]; rfl
  | .join jt sl l r, hk => by
      simp only [uFuncsKnownN, Bool.and_eq_true] at hk
      obtain ⟨l2, hl2, hnol⟩ := rf_ok cat l hk.1
      obtain ⟨r2, hr2, hnor⟩ := rf_ok cat r hk.2
      refine ⟨.join jt sl l2 r2, ?_, ?_⟩
      · simp only [TransformUp]
        rw [hl2, ok_bind, hr2, ok_bind,
          rfStep_pure cat (.join jt sl l2 r2) rfl]; rfl
      · simp only [noUFuncN, Bool.and_eq_true]
        exact ⟨hnol, hnor⟩
  | .indexedJoin l r, hk => by
      simp only [uFuncsKnownN, Bool.and_eq_true] at hk
      obtain ⟨l2, hl2, hnol⟩ := rf_ok cat l hk.1
      obtain ⟨r2, hr2, hnor⟩ := rf_ok cat r hk.2
      refine ⟨.indexedJoin l2 r2, ?_, ?_⟩
      · simp only [TransformUp]
        rw [hl2, ok_bind, hr2, ok_bind,
          rfStep_pure cat (.indexedJoin l2 r2) rfl]; rfl
      · simp only [noUFuncN, Bool.and_eq_true]
        exact ⟨hnol, hnor⟩
  | .cachedResults c, hk => by
      obtain ⟨c2, hc2, hnoc⟩ := rf_ok cat c hk
      refine ⟨.cachedResults c2, ?_, hnoc⟩
      simp only [TransformUp]
      rw [hc2, ok_bind, rfStep_pure cat (.cachedResults c2) rfl]; rfl
  | .stripRowNode c k, hk => by
      obtain ⟨c2, hc2, hnoc⟩ := rf_ok cat c hk
      refine ⟨.stripRowNode c2 k, ?_, hnoc⟩
      simp only [TransformUp]
      rw [hc2, ok_bind, rfStep_pure cat (.stripRowNode c2 k) rfl]; rfl
  | .triggerBlock b, hk => by
      obtain ⟨b2, hb2, hnob⟩ := rf_okL cat b hk
      refine ⟨.triggerBlock b2, ?_, hnob⟩
      simp only [TransformUp]
      rw [hb2, ok_bind, rfStep_pure cat (.triggerBlock b2) rfl]; rfl
  | .queryProcess c, hk => by
      obtain ⟨c2, hc2, hnoc⟩ := rf_ok cat c hk
      refine ⟨.queryProcess c2, ?_, hnoc⟩
      simp only [TransformUp]
      rw [hc2, ok_bind, rfStep_pure cat (.queryProcess c2) rfl]; rfl
  | .startTransaction c, hk => by
      obtain ⟨c2, hc2, hnoc⟩ := rf_ok cat c hk
      refine ⟨.startTransaction c2, ?_, hnoc⟩
      simp only [TransformUp]
      rw [hc2, ok_bind, rfStep_pure cat (.startTransaction c2) rfl]; rfl

theorem rf_okL (cat : Catalog) :
    ∀ b, uFuncsKnownNs cat b = true →
      ∃ bs, TransformUpList (resolveFunctionsStep cat) b = .ok bs ∧
        noUFuncNs bs = true
  | [], _ => ⟨[], rfl, rfl⟩
  | n :: ns, hk => by
      simp only [uFuncsKnownNs, Bool.and_eq_true] at hk
      obtain ⟨n2, hn2, hno⟩ := rf_ok cat n hk.1
      obtain ⟨ns2, hns2, hnos⟩ := rf_okL cat ns hk.2
      refine ⟨n2 :: ns2, ?_, by simp [noUFuncNs, hno, hnos]⟩
      simp only [TransformUpList]
      rw [hn2, ok_bind, hns2, ok_bind]
      rfl
end

/-- C8: when every unresolved function call in the tree names a function the
catalog resolves, `resolveFunctions` succeeds and leaves no unresolved call
behind; an absent name aborts the whole traversal with `UnknownFunction`;
and a present name is instantiated with the call's own argument list, with
the call's window specification carried over unchanged for aggregations and
window aggregations (a scalar instance drops it). -/
theorem resolveFunctions_correct :
    (∀ (cat : Catalog) (n : Node), uFuncsKnownN cat n = true →
      ∃ m, resolveFunctions cat n = .ok m ∧ noUFuncN m = true) ∧
    (resolveFunctions egCatalog egStmtUnknown =
      .error (.unknownFunction "nosuch")) ∧
    (resolveFunctions egCatalog egStmtSum = .ok (.project
      [.funcE "sum" [.getField 0 "a"] (some 3) .aggregation false]
      (.table "t" ["a"]))) ∧
    (resolveFunctions egCatalog egStmtRowNum = .ok (.project
      [.funcE "row_number" [] (some 9) .windowAggregation false]
      (.table "t" ["a"]))) ∧
    (resolveFunctions egCatalog egStmtAbs = .ok (.project
      [.funcE "abs" [.getField 0 "a"] none .scalar false]
      (.table "t" ["a"]))) :=
  ⟨fun cat n hk => rf_ok cat n hk, rfl, rfl, rfl, rfl⟩

/-- C8 (witness): resolution over `egCatalog` applied to the aggregate
statement, whose only unresolved call (`sum`) the catalog resolves. -/
theorem resolveFunctions_correct_witness :
    uFuncsKnownN egCatalog egStmtSum = true ∧
    ∃ m, resolveFunctions egCatalog egStmtSum = .ok m ∧ noUFuncN m = true :=
  ⟨rfl, resolveFunctions_correct.1 egCatalog egStmtSum rfl⟩

/-- Monadic bind of `pure` on the left. -/
theorem epure_bind {β γ : Type} (a : β) (g : β → Except AErr γ) :
    ((pure a : Except AErr β) >>= g) = g a := rfl

/-- Splicing a trivially clean child rewrite keeps the child. -/
theorem pick_self (c : Node) : pick c (c, true) = c := rfl

/-- `wrapJoinSAStep` in closed form: under a join-ish parent a subquery
alias is wrapped with `NewTree`, everything else is returned with `Same`. -/
theorem wrapJoinSAStep_eq :
    ∀ (node : Node) (parent : Option Node) (i : Nat),
      wrapJoinSAStep ⟨node, parent, i⟩ =
        if parentJoinish parent = true then
          match node with
          | .subqueryAlias nm cols ch =>
              pure (.cachedResults (.subqueryAlias nm cols ch), false)
          | m => pure (m, true)
        else pure (node, true) := by
  intro node parent i
  cases parent with
  | none => cases node <;> rfl
  | some q => cases q <;> cases node <;> rfl

/-- `wrapJoinSAStep` leaves every non-alias node untouched. -/
theorem wrapJoinSAStep_nonSA (m : Node) (p : Option Node) (i : Nat)
    (hm : notSA m = true) : wrapJoinSAStep ⟨m, p, i⟩ = pure (m, true) := by
  rw [wrapJoinSAStep_eq]
  by_cases hp : parentJoinish p = true
  · rw [if_pos hp]
    cases m <;> first | rfl | simp [notSA] at hm
  · rw [if_neg hp]

/-- `wrapJoinSAStep` on a subquery alias. -/
theorem wrapJoinSAStep_SA (nm : String) (cols : List String) (ch : Node)
    (p : Option Node) (i : Nat) :
    wrapJoinSAStep ⟨.subqueryAlias nm cols ch, p, i⟩ =
      if parentJoinish p = true then
        pure (.cachedResults (.subqueryAlias nm cols ch), false)
      else pure (.subqueryAlias nm cols ch, true) := by
  rw [wrapJoinSAStep_eq]

/-- `wrapJoinSAStep` never fails. -/
theorem wrapJoinSAStep_total (c : TCtx) : ∃ x, wrapJoinSAStep c = .ok x := by
  obtain ⟨node, parent, i⟩ := c
  rw [wrapJoinSAStep_eq]
  by_cases hp : parentJoinish parent = true
  · rw [if_pos hp]
    cases node <;> exact ⟨_, rfl⟩
  · rw [if_neg hp]
    exact ⟨(node, true), rfl⟩

/-- `wrapJoinSAStep` honors the change-identity contract. -/
theorem wrapJoinSAStep_same (c : TCtx) :
    ∀ x, wrapJoinSAStep c = .ok x → x.2 = true → x.1 = c.node := by
  obtain ⟨node, parent, i⟩ := c
  intro x h ht
  rw [wrapJoinSAStep_eq] at h
  by_cases hp : parentJoinish parent = true
  · rw [if_pos hp] at h
    cases node <;>
      (simp only [pure, Except.pure, Except.ok.injEq] at h
       subst h
       first
         | rfl
         | exact absurd ht (by simp))
  · rw [if_neg hp] at h
    simp only [pure, Except.pure, Except.ok.injEq] at h
    subst h
    rfl

/-- `removeCRStep` never fails. -/
theorem removeCRStep_total (c : TCtx) : ∃ x, removeCRStep c = .ok x := by
  obtain ⟨node, parent, i⟩ := c
  cases node <;> exact ⟨_, rfl⟩

/-- `removeCRStep` honors the change-identity contract. -/
theorem removeCRStep_same (c : TCtx) :
    ∀ x, removeCRStep c = .ok x → x.2 = true → x.1 = c.node := by
  obtain ⟨node, parent, i⟩ := c
  intro x h ht
  cases node
  case cachedResults ch =>
      simp only [removeCRStep, pure, Except.pure, Except.ok.injEq] at h
      subst h
      exact absurd ht (by simp)
  all_goals
    simp only [removeCRStep, pure, Except.pure, Except.ok.injEq] at h
    subst h
    rfl

/-- The `Same`-flag of a wrap-phase child rewrite certifies it returned the
original child. -/
theorem wrapSA_sameChild (c : Node) (p : Option Node) (i : Nat)
    {rc : Node × Bool}
    (hrc : visitCtx none wrapJoinSAStep c p i = .ok rc) :
    rc.2 = true → rc.1 = c :=
  visitCtx_same_root none wrapJoinSAStep c p i
    (fun x hx hxt => wrapJoinSAStep_same ⟨c, p, i⟩ x hx hxt) rc hrc

mutual
/-- After the wrap phase, no join (or indexed join) has a bare
`SubqueryAlias` as a direct child, and a node produced under a join-ish
parent is never a bare alias. -/
theorem wrapSA_noBare :
    ∀ (n : Node) (p : Option Node) (i : Nat) y,
      visitCtx none wrapJoinSAStep n p i = .ok y →
      noBareSAUnderJoin y.1 = true ∧
        (parentJoinish p = true → notSA y.1 = true)
  | .table nm cols, p, i => by
      intro y h
      simp only [visitCtx] at h
      rw [wrapJoinSAStep_nonSA (.table nm cols) p i rfl] at h
      have h2 : (Except.ok (Node.table nm cols, true) :
          Except AErr (Node × Bool)) = .ok y := h
      cases h2
      exact ⟨rfl, fun _ => rfl⟩
  | .project es c, p, i => by
      intro y h
      simp only [visitCtx, selOk, eq_self_iff_true, if_true] at h
      obtain ⟨rc, r, hrc, hr, hy⟩ := do2_ok h
      have ih := wrapSA_noBare c (some (.project es c)) 0 rc hrc
      rw [pick_eq_of_same_imp (wrapSA_sameChild c _ 0 hrc)] at hr
      rw [wrapJoinSAStep_nonSA (.project es rc.1) p i rfl] at hr
      have h2 : (Except.ok (Node.project es rc.1, true) :
          Except AErr (Node × Bool)) = .ok r := hr
      cases h2
      subst hy
      exact ⟨by simp only [noBareSAUnderJoin]; exact ih.1, fun _ => rfl⟩
  | .subqueryAlias nm cols c, p, i => by
      intro y h
      simp only [visitCtx, selOk, eq_self_iff_true, if_true] at h
      obtain ⟨rc, r, hrc, hr, hy⟩ := do2_ok h
      have ih := wrapSA_noBare c (some (.subqueryAlias nm cols c)) 0 rc hrc
      rw [pick_eq_of_same_imp (wrapSA_sameChild c _ 0 hrc)] at hr
      rw [wrapJoinSAStep_SA nm cols rc.1 p i] at hr
      by_cases hp : parentJoinish p = true
      · rw [if_pos hp] at hr
        have h2 : (Except.ok
            (Node.cachedResults (.subqueryAlias nm cols rc.1), false) :
            Except AErr (Node × Bool)) = .ok r := hr
        cases h2
        subst hy
        exact ⟨by simp only [noBareSAUnderJoin]; exact ih.1,
          fun _ => rfl⟩
      · rw [if_neg hp] at hr
        have h2 : (Except.ok (Node.subqueryAlias nm cols rc.1, true) :
            Except AErr (Node × Bool)) = .ok r := hr
        cases h2
        subst hy
        exact ⟨by simp only [noBareSAUnderJoin]; exact ih.1,
          fun hcon => absurd hcon hp⟩
  | .join jt sl l r, p, i => by
      intro y h
      simp only [visitCtx, selOk, eq_self_iff_true, if_true] at h
      obtain ⟨rl, rr, res, hrl, hrr, hres, hy⟩ := do3_ok h
      have ihl := wrapSA_noBare l (some (.join jt sl l r)) 0 rl hrl
      have ihr := wrapSA_noBare r (some (.join jt sl l r)) 1 rr hrr
      rw [pick_eq_of_same_imp (wrapSA_sameChild l _ 0 hrl),
        pick_eq_of_same_imp (wrapSA_sameChild r _ 1 hrr)] at hres
      rw [wrapJoinSAStep_nonSA (.join jt sl rl.1 rr.1) p i rfl] at hres
      have h2 : (Except.ok (Node.join jt sl rl.1 rr.1, true) :
          Except AErr (Node × Bool)) = .ok res := hres
      cases h2
      subst hy
      refine ⟨?_, fun _ => rfl⟩
      simp only [noBareSAUnderJoin, Bool.and_eq_true]
      exact ⟨⟨⟨ihl.2 rfl, ihr.2 rfl⟩, ihl.1⟩, ihr.1⟩
  | .indexedJoin l r, p, i => by
      intro y h
      simp only [visitCtx, selOk, eq_self_iff_true, if_true] at h
      obtain ⟨rl, rr, res, hrl, hrr, hres, hy⟩ := do3_ok h
      have ihl := wrapSA_noBare l (some (.indexedJoin l r)) 0 rl hrl
      have ihr := wrapSA_noBare r (some (.indexedJoin l r)) 1 rr hrr
      rw [pick_eq_of_same_imp (wrapSA_sameChild l _ 0 hrl),
        pick_eq_of_same_imp (wrapSA_sameChild r _ 1 hrr)] at hres
      rw [wrapJoinSAStep_nonSA (.indexedJoin rl.1 rr.1) p i rfl] at hres
      have h2 : (Except.ok (Node.indexedJoin rl.1 rr.1, true) :
          Except AErr (Node × Bool)) = .ok res := hres
      cases h2
      subst hy
      refine ⟨?_, fun _ => rfl⟩
      simp only [noBareSAUnderJoin, Bool.and_eq_true]
      exact ⟨⟨⟨ihl.2 rfl, ihr.2 rfl⟩, ihl.1⟩, ihr.1⟩
  | .cachedResults c, p, i => by
      intro y h
      simp only [visitCtx, selOk, eq_self_iff_true, if_true] at h
      obtain ⟨rc, r, hrc, hr, hy⟩ := do2_ok h
      have ih := wrapSA_noBare c (some (.cachedResults c)) 0 rc hrc
      rw [pick_eq_of_same_imp (wrapSA_sameChild c _ 0 hrc)] at hr
      rw [wrapJoinSAStep_nonSA (.cachedResults rc.1) p i rfl] at hr
      have h2 : (Except.ok (Node.cachedResults rc.1, true) :
          Except AErr (Node × Bool)) = .ok r := hr
      cases h2
      subst hy
      exact ⟨by simp only [noBareSAUnderJoin]; exact ih.1, fun _ => rfl⟩
  | .stripRowNode c k, p, i => by
      intro y h
      simp only [visitCtx, selOk, eq_self_iff_true, if_true] at h
      obtain ⟨rc, r, hrc, hr, hy⟩ := do2_ok h
      have ih := wrapSA_noBare c (some (.stripRowNode c k)) 0 rc hrc
      rw [pick_eq_of_same_imp (wrapSA_sameChild c _ 0 hrc)] at hr
      rw [wrapJoinSAStep_nonSA (.stripRowNode rc.1 k) p i rfl] at hr
      have h2 : (Except.ok (Node.stripRowNode rc.1 k, true) :
          Except AErr (Node × Bool)) = .ok r := hr
      cases h2
      subst hy
      exact ⟨by simp only [noBareSAUnderJoin]; exact ih.1, fun _ => rfl⟩
  | .triggerBlock b, p, i => by
      intro y h
      simp only [visitCtx] at h
      obtain ⟨rb, r, hrb, hr, hy⟩ := do2_ok h
      have ih := wrapSA_noBareL b (.triggerBlock b) 0 rb hrb
      rw [wrapJoinSAStep_nonSA (.triggerBlock rb.1) p i rfl] at hr
      have h2 : (Except.ok (Node.triggerBlock rb.1, true) :
          Except AErr (Node × Bool)) = .ok r := hr
      cases h2
      subst hy
      exact ⟨by simp only [noBareSAUnderJoin]; exact ih, fun _ => rfl⟩
  | .queryProcess c, p, i => by
      intro y h
      simp only [visitCtx, selOk, eq_self_iff_true, if_true] at h
      obtain ⟨rc, r, hrc, hr, hy⟩ := do2_ok h
      have ih := wrapSA_noBare c (some (.queryProcess c)) 0 rc hrc
      rw [pick_eq_of_same_imp (wrapSA_sameChild c _ 0 hrc)] at hr
      rw [wrapJoinSAStep_nonSA (.queryProcess rc.1) p i rfl] at hr
      have h2 : (Except.ok (Node.queryProcess rc.1, true) :
          Except AErr (Node × Bool)) = .ok r := hr
      cases h2
      subst hy
      exact ⟨by simp only [noBareSAUnderJoin]; exact ih.1, fun _ => rfl⟩
  | .startTransaction c, p, i => by
      intro y h
      simp only [visitCtx, selOk, eq_self_iff_true, if_true] at h
      obtain ⟨rc, r, hrc, hr, hy⟩ := do2_ok h
      have ih := wrapSA_noBare c (some (.startTransaction c)) 0 rc hrc
      rw [pick_eq_of_same_imp (wrapSA_sameChild c _ 0 hrc)] at hr
      rw [wrapJoinSAStep_nonSA (.startTransaction rc.1) p i rfl] at hr
      have h2 : (Except.ok (Node.startTransaction rc.1, true) :
          Except AErr (Node × Bool)) = .ok r := hr
      cases h2
      subst hy
      exact ⟨by simp only [noBareSAUnderJoin]; exact ih.1, fun _ => rfl⟩

theorem wrapSA_noBareL :
    ∀ (b : List Node) (parent : Node) (i : Nat) ys,
      visitCtxList none wrapJoinSAStep parent i b = .ok ys →
      noBareSAUnderJoinL ys.1 = true
  | [], parent, i => by
      intro ys h
      have h2 : (Except.ok (([] : List Node), true) :
          Except AErr (List Node × Bool)) = .ok ys := h
      cases h2
      rfl
  | n :: ns, parent, i => by
      intro ys h
      simp only [visitCtxList, selOk, eq_self_iff_true, if_true] at h
      obtain ⟨r, rs, hr, hrs, hy⟩ := doPair_ok h
      have ihh := wrapSA_noBare n (some parent) i r hr
      have iht := wrapSA_noBareL ns parent (i + 1) rs hrs
      subst hy
      rw [pick_eq_of_same_imp (wrapSA_sameChild n _ i hr)]
      simp only [noBareSAUnderJoinL, Bool.and_eq_true]
      exact ⟨ihh.1, iht⟩
end

/-- The `Same`-flag of a removal-phase child rewrite certifies it returned
the original child. -/
theorem stripCR_sameChild (c : Node) (p : Option Node) (i : Nat)
    {rc : Node × Bool}
    (hrc : visitCtx (some primaryChildSelector) removeCRStep c p i = .ok rc) :
    rc.2 = true → rc.1 = c :=
  visitCtx_same_root (some primaryChildSelector) removeCRStep c p i
    (fun x hx hxt => removeCRStep_same ⟨c, p, i⟩ x hx hxt) rc hrc

mutual
/-- After the removal phase, no `CachedResults` decorator remains along the
paths the primary-child selector admits. -/
theorem stripCR_noCR :
    ∀ (n : Node) (p : Option Node) (i : Nat) y,
      visitCtx (some primaryChildSelector) removeCRStep n p i = .ok y →
      noCROnPrimaryPaths y.1 = true
  | .table nm cols, p, i => by
      intro y h
      have h2 : (Except.ok (Node.table nm cols, true) :
          Except AErr (Node × Bool)) = .ok y := h
      cases h2
      rfl
  | .project es c, p, i => by
      intro y h
      have h2 : (do
          let rc ← visitCtx (some primaryChildSelector) removeCRStep c
            (some (.project es c)) 0
          let r ← removeCRStep ⟨.project es (pick c rc), p, i⟩
          pure (r.1, rc.2 && r.2) : Except AErr (Node × Bool)) = .ok y := h
      obtain ⟨rc, r, hrc, hr, hy⟩ := do2_ok h2
      have ih := stripCR_noCR c (some (.project es c)) 0 rc hrc
      rw [pick_eq_of_same_imp (stripCR_sameChild c _ 0 hrc)] at hr
      have h3 : (Except.ok (Node.project es rc.1, true) :
          Except AErr (Node × Bool)) = .ok r := hr
      cases h3
      subst hy
      exact ih
  | .subqueryAlias nm cols c, p, i => by
      intro y h
      have h2 : (do
          let rc ← visitCtx (some primaryChildSelector) removeCRStep c
            (some (.subqueryAlias nm cols c)) 0
          let r ← removeCRStep ⟨.subqueryAlias nm cols (pick c rc), p, i⟩
          pure (r.1, rc.2 && r.2) : Except AErr (Node × Bool)) = .ok y := h
      obtain ⟨rc, r, hrc, hr, hy⟩ := do2_ok h2
      have ih := stripCR_noCR c (some (.subqueryAlias nm cols c)) 0 rc hrc
      rw [pick_eq_of_same_imp (stripCR_sameChild c _ 0 hrc)] at hr
      have h3 : (Except.ok (Node.subqueryAlias nm cols rc.1, true) :
          Except AErr (Node × Bool)) = .ok r := hr
      cases h3
      subst hy
      exact ih
  | .join jt sl l r, p, i => by
      intro y h
      cases jt with
      | inner =>
          have h2 : (do
              let rl ← visitCtx (some primaryChildSelector) removeCRStep l
                (some (.join .inner sl l r)) 0
              let rr ← (pure (r, true) : Except AErr (Node × Bool))
              let res ← removeCRStep
                ⟨.join .inner sl (pick l rl) (pick r rr), p, i⟩
              pure (res.1, rl.2 && rr.2 && res.2) :
                Except AErr (Node × Bool)) = .ok y := h
          obtain ⟨rl, rr, res, hrl, hrr, hres, hy⟩ := do3_ok h2
          have ih := stripCR_noCR l (some (.join .inner sl l r)) 0 rl hrl
          have h3 : (Except.ok ((r, true) : Node × Bool) :
              Except AErr (Node × Bool)) = .ok rr := hrr
          cases h3
          rw [pick_self, pick_eq_of_same_imp (stripCR_sameChild l _ 0 hrl)]
            at hres
          have h4 : (Except.ok (Node.join .inner sl rl.1 r, true) :
              Except AErr (Node × Bool)) = .ok res := hres
          cases h4
          subst hy
          exact ih
      | leftOuter =>
          have h2 : (do
              let rl ← visitCtx (some primaryChildSelector) removeCRStep l
                (some (.join .leftOuter sl l r)) 0
              let rr ← (pure (r, true) : Except AErr (Node × Bool))
              let res ← removeCRStep
                ⟨.join .leftOuter sl (pick l rl) (pick r rr), p, i⟩
              pure (res.1, rl.2 && rr.2 && res.2) :
                Except AErr (Node × Bool)) = .ok y := h
          obtain ⟨rl, rr, res, hrl, hrr, hres, hy⟩ := do3_ok h2
          have ih := stripCR_noCR l (some (.join .leftOuter sl l r)) 0 rl hrl
          have h3 : (Except.ok ((r, true) : Node × Bool) :
              Except AErr (Node × Bool)) = .ok rr := hrr
          cases h3
          rw [pick_self, pick_eq_of_same_imp (stripCR_sameChild l _ 0 hrl)]
            at hres
          have h4 : (Except.ok (Node.join .leftOuter sl rl.1 r, true) :
              Except AErr (Node × Bool)) = .ok res := hres
          cases h4
          subst hy
          exact ih
      | rightOuter =>
          have h2 : (do
              let rl ← (pure (l, true) : Except AErr (Node × Bool))
              let rr ← visitCtx (some primaryChildSelector) removeCRStep r
                (some (.join .rightOuter sl l r)) 1
              let res ← removeCRStep
                ⟨.join .rightOuter sl (pick l rl) (pick r rr), p, i⟩
              pure (res.1, rl.2 && rr.2 && res.2) :
                Except AErr (Node × Bool)) = .ok y := h
          obtain ⟨rl, rr, res, hrl, hrr, hres, hy⟩ := do3_ok h2
          have ih := stripCR_noCR r (some (.join .rightOuter sl l r)) 1 rr hrr
          have h3 : (Except.ok ((l, true) : Node × Bool) :
              Except AErr (Node × Bool)) = .ok rl := hrl
          cases h3
          rw [pick_self, pick_eq_of_same_imp (stripCR_sameChild r _ 1 hrr)]
            at hres
          have h4 : (Except.ok (Node.join .rightOuter sl l rr.1, true) :
              Except AErr (Node × Bool)) = .ok res := hres
          cases h4
          subst hy
          exact ih
  | .indexedJoin l r, p, i => by
      intro y h
      have h2 : (do
          let rl ← visitCtx (some primaryChildSelector) removeCRStep l
            (some (.indexedJoin l r)) 0
          let rr ← (pure (r, true) : Except AErr (Node × Bool))
          let res ← removeCRStep ⟨.indexedJoin (pick l rl) (pick r rr), p, i⟩
          pure (res.1, rl.2 && rr.2 && res.2) :
            Except AErr (Node × Bool)) = .ok y := h
      obtain ⟨rl, rr, res, hrl, hrr, hres, hy⟩ := do3_ok h2
      have ih := stripCR_noCR l (some (.indexedJoin l r)) 0 rl hrl
      have h3 : (Except.ok ((r, true) : Node × Bool) :
          Except AErr (Node × Bool)) = .ok rr := hrr
      cases h3
      rw [pick_self, pick_eq_of_same_imp (stripCR_sameChild l _ 0 hrl)]
        at hres
      have h4 : (Except.ok (Node.indexedJoin rl.1 r, true) :
          Except AErr (Node × Bool)) = .ok res := hres
      cases h4
      subst hy
      exact ih
  | .cachedResults c, p, i => by
      intro y h
      have h2 : (do
          let rc ← visitCtx (some primaryChildSelector) removeCRStep c
            (some (.cachedResults c)) 0
          let r ← removeCRStep ⟨.cachedResults (pick c rc), p, i⟩
          pure (r.1, rc.2 && r.2) : Except AErr (Node × Bool)) = .ok y := h
      obtain ⟨rc, r, hrc, hr, hy⟩ := do2_ok h2
      have ih := stripCR_noCR c (some (.cachedResults c)) 0 rc hrc
      rw [pick_eq_of_same_imp (stripCR_sameChild c _ 0 hrc)] at hr
      have h3 : (Except.ok (rc.1, false) :
          Except AErr (Node × Bool)) = .ok r := hr
      cases h3
      subst hy
      exact ih
  | .stripRowNode c k, p, i => by
      intro y h
      have h2 : (do
          let rc ← visitCtx (some primaryChildSelector) removeCRStep c
            (some (.stripRowNode c k)) 0
          let r ← removeCRStep ⟨.stripRowNode (pick c rc) k, p, i⟩
          pure (r.1, rc.2 && r.2) : Except AErr (Node × Bool)) = .ok y := h
      obtain ⟨rc, r, hrc, hr, hy⟩ := do2_ok h2
      have ih := stripCR_noCR c (some (.stripRowNode c k)) 0 rc hrc
      rw [pick_eq_of_same_imp (stripCR_sameChild c _ 0 hrc)] at hr
      have h3 : (Except.ok (Node.stripRowNode rc.1 k, true) :
          Except AErr (Node × Bool)) = .ok r := hr
      cases h3
      subst hy
      exact ih
  | .triggerBlock b, p, i => by
      intro y h
      have h2 : (do
          let rb ← visitCtxList (some primaryChildSelector) removeCRStep
            (.triggerBlock b) 0 b
          let r ← removeCRStep ⟨.triggerBlock rb.1, p, i⟩
          pure (r.1, rb.2 && r.2) : Except AErr (Node × Bool)) = .ok y := h
      obtain ⟨rb, r, hrb, hr, hy⟩ := do2_ok h2
      have ih := stripCR_noCRL b b 0 rb hrb
      have h3 : (Except.ok (Node.triggerBlock rb.1, true) :
          Except AErr (Node × Bool)) = .ok r := hr
      cases h3
      subst hy
      exact ih
  | .queryProcess c, p, i => by
      intro y h
      have h2 : (do
          let rc ← visitCtx (some primaryChildSelector) removeCRStep c
            (some (.queryProcess c)) 0
          let r ← removeCRStep ⟨.queryProcess (pick c rc), p, i⟩
          pure (r.1, rc.2 && r.2) : Except AErr (Node × Bool)) = .ok y := h
      obtain ⟨rc, r, hrc, hr, hy⟩ := do2_ok h2
      have ih := stripCR_noCR c (some (.queryProcess c)) 0 rc hrc
      rw [pick_eq_of_same_imp (stripCR_sameChild c _ 0 hrc)] at hr
      have h3 : (Except.ok (Node.queryProcess rc.1, true) :
          Except AErr (Node × Bool)) = .ok r := hr
      cases h3
      subst hy
      exact ih
  | .startTransaction c, p, i => by
      intro y h
      have h2 : (do
          let rc ← visitCtx (some primaryChildSelector) removeCRStep c
            (some (.startTransaction c)) 0
          let r ← removeCRStep ⟨.startTransaction (pick c rc), p, i⟩
          pure (r.1, rc.2 && r.2) : Except AErr (Node × Bool)) = .ok y := h
      obtain ⟨rc, r, hrc, hr, hy⟩ := do2_ok h2
      have ih := stripCR_noCR c (some (.startTransaction c)) 0 rc hrc
      rw [pick_eq_of_same_imp (stripCR_sameChild c _ 0 hrc)] at hr
      have h3 : (Except.ok (Node.startTransaction rc.1, true) :
          Except AErr (Node × Bool)) = .ok r := hr
      cases h3
      subst hy
      exact ih

theorem stripCR_noCRL :
    ∀ (b : List Node) (bb : List Node) (i : Nat) ys,
      visitCtxList (some primaryChildSelector) removeCRStep
        (.triggerBlock bb) i b = .ok ys →
      noCROnPrimaryPathsL ys.1 = true
  | [], bb, i => by
      intro ys h
      have h2 : (Except.ok (([] : List Node), true) :
          Except AErr (List Node × Bool)) = .ok ys := h
      cases h2
      rfl
  | n :: ns, bb, i => by
      intro ys h
      have h2 : (do
          let r ← visitCtx (some primaryChildSelector) removeCRStep n
            (some (.triggerBlock bb)) i
          let rs ← visitCtxList (some primaryChildSelector) removeCRStep
            (.triggerBlock bb) (i + 1) ns
          pure (pick n r :: rs.1, r.2 && rs.2) :
            Except AErr (List Node × Bool)) = .ok ys := h
      obtain ⟨r, rs, hr, hrs, hy⟩ := doPair_ok h2
      have ihh := stripCR_noCR n (some (.triggerBlock bb)) i r hr
      have iht := stripCR_noCRL ns bb (i + 1) rs hrs
      subst hy
      rw [pick_eq_of_same_imp (stripCR_sameChild n _ i hr)]
      simp only [noCROnPrimaryPathsL, Bool.and_eq_true]
      exact ⟨ihh, iht⟩
end

/-- C3: after `cacheSubqueryAlisesInJoins`, no join (or indexed join) has a
bare `SubqueryAlias` as a direct child (they are all wrapped in
`CachedResults`); the rule never fails; with a non-empty outer scope the
rule is exactly the wrap phase, removing nothing; with the empty scope the
decorator is removed again along the most-primary path — child 1 of a right
join, child 0 of every other join and of an indexed join — as the concrete
join examples show: the primary operand ends bare, the secondary stays
wrapped, and in a nested (non-empty) scope both stay wrapped. -/
theorem joinSubqueryAliasCaching_correct :
    (∀ (scope : Scope) (n : Node), scope ≠ [] →
      cacheSubqueryAlisesInJoins scope n =
        visitNodesWithCtx n none wrapJoinSAStep) ∧
    (∀ n y, visitNodesWithCtx n none wrapJoinSAStep = .ok y →
      noBareSAUnderJoin y.1 = true) ∧
    (∀ n y, cacheSubqueryAlisesInJoins [] n = .ok y →
      noCROnPrimaryPaths y.1 = true) ∧
    (∀ (scope : Scope) (n : Node), ∃ y,
      cacheSubqueryAlisesInJoins scope n = .ok y) ∧
    (cacheSubqueryAlisesInJoins [] (.join .inner 0 egSA1 egSA2) =
      .ok (.join .inner 0 egSA1 (.cachedResults egSA2), false)) ∧
    (cacheSubqueryAlisesInJoins [] (.join .rightOuter 0 egSA1 egSA2) =
      .ok (.join .rightOuter 0 (.cachedResults egSA1) egSA2, false)) ∧
    (cacheSubqueryAlisesInJoins [] (.indexedJoin egSA1 egSA2) =
      .ok (.indexedJoin egSA1 (.cachedResults egSA2), false)) ∧
    (cacheSubqueryAlisesInJoins egScope2 (.join .inner 0 egSA1 egSA2) =
      .ok (.join .inner 0 (.cachedResults egSA1) (.cachedResults egSA2),
        false)) := by
  refine ⟨?_, ?_, ?_, ?_, rfl, rfl, rfl, rfl⟩
  · intro scope n hne
    cases scope with
    | nil => exact absurd rfl hne
    | cons s ss =>
        cases hA : visitNodesWithCtx n none wrapJoinSAStep with
        | error e =>
            simp only [cacheSubqueryAlisesInJoins]
            rw [show visitNodesWithCtx n none wrapJoinSAStep =
              .error e from hA, error_bind]
        | ok ra =>
            simp only [cacheSubqueryAlisesInJoins]
            rw [show visitNodesWithCtx n none wrapJoinSAStep =
              .ok ra from hA, ok_bind]
            rfl
  · intro n y h
    exact (wrapSA_noBare n none 0 y h).1
  · intro n y h
    have h2 : (do
        let ra ← visitNodesWithCtx n none wrapJoinSAStep
        let rd ← visitNodesWithCtx ra.1 (some primaryChildSelector)
          removeCRStep
        pure (rd.1, ra.2 && rd.2) : Except AErr (Node × Bool)) = .ok y := h
    obtain ⟨ra, rd, hra, hrd, hy⟩ := do2_ok h2
    subst hy
    exact stripCR_noCR ra.1 none 0 rd hrd
  · intro scope n
    obtain ⟨ra, hra⟩ := visitCtx_total none wrapJoinSAStep
      wrapJoinSAStep_total n none 0
    cases scope with
    | nil =>
        obtain ⟨rd, hrd⟩ := visitCtx_total (some primaryChildSelector)
          removeCRStep removeCRStep_total ra.1 none 0
        refine ⟨(rd.1, ra.2 && rd.2), ?_⟩
        show (do
          let ra ← visitNodesWithCtx n none wrapJoinSAStep
          let rd ← visitNodesWithCtx ra.1 (some primaryChildSelector)
            removeCRStep
          pure (rd.1, ra.2 && rd.2) : Except AErr (Node × Bool)) = _
        rw [show visitNodesWithCtx n none wrapJoinSAStep = .ok ra from hra,
          ok_bind,
          show visitNodesWithCtx ra.1 (some primaryChildSelector)
            removeCRStep = .ok rd from hrd, ok_bind]
        rfl
    | cons s ss =>
        refine ⟨ra, ?_⟩
        simp only [cacheSubqueryAlisesInJoins]
        rw [show visitNodesWithCtx n none wrapJoinSAStep = .ok ra from hra,
          ok_bind]
        rfl

/-- C3 (witness): the rule applied at concrete inputs satisfying the
hypotheses — a non-empty scope is a pure wrap phase, and with the empty
scope the output of the inner-join example has no decorator on its primary
path and no bare alias under its join. -/
theorem joinSubqueryAliasCaching_correct_witness :
    (egScope2 ≠ [] ∧
      cacheSubqueryAlisesInJoins egScope2 (.join .inner 0 egSA1 egSA2) =
        visitNodesWithCtx (.join .inner 0 egSA1 egSA2) none wrapJoinSAStep) ∧
    (noBareSAUnderJoin
      (.join .inner 0 (.cachedResults egSA1) (.cachedResults egSA2)) =
        true) ∧
    noCROnPrimaryPaths (.join .inner 0 egSA1 (.cachedResults egSA2)) =
      true := by
  have hne : egScope2 ≠ [] := by simp [egScope2]
  refine ⟨⟨hne, joinSubqueryAliasCaching_correct.1 egScope2 _ hne⟩, ?_, ?_⟩
  · exact joinSubqueryAliasCaching_correct.2.1 (.join .inner 0 egSA1 egSA2)
      (.join .inner 0 (.cachedResults egSA1) (.cachedResults egSA2), false)
      rfl
  · exact joinSubqueryAliasCaching_correct.2.2.1 (.join .inner 0 egSA1 egSA2)
      (.join .inner 0 egSA1 (.cachedResults egSA2), false) rfl

end Gms
